import Mathlib

/-!
Verification of the AutoLatex document-structure-extraction engine.

The definitions below are a shallow embedding of the Python sources under
src/autolatex/tools: the three format extractors
(document_parser/txt_parser.py, document_parser/md_parser.py,
document_parser/docx_parser.py), the dispatch entry point
(document_tools.py, DocumentParserTool._run) and the schema validator
(schema_validator.py).  Python strings become Lean String, Python lists
become Lean List, dict-shaped records become structures, exceptions become
Except, and the regular expressions of the source are compiled by hand into
executable scanners whose behaviour matches Python re semantics
(leftmost match, greedy / lazy quantifiers, non-overlapping findall) on the
character classes the patterns use.  Whitespace classes are modelled over
the ASCII whitespace characters, the only ones the analysed inputs contain.

External libraries used by the source (python-docx, markdown+BeautifulSoup,
yaml, jsonschema) are modelled as explicit inputs: a docx document becomes a
list of paragraph/table nodes carrying exactly the attributes the source
reads, the rendered Markdown DOM becomes an element tree parameter, and the
jsonschema validator becomes an outcome parameter.
-/

namespace AutoLatex

/-- Python str.strip / `\s` whitespace over the ASCII range. -/
def isPyWS (c : Char) : Bool :=
  c = ' ' || c = '\t' || c = '\n' || c = '\r' || c = '\x0b' || c = '\x0c'

def isAsciiDigit (c : Char) : Bool := '0' ≤ c && c ≤ '9'

def isAsciiLower (c : Char) : Bool := 'a' ≤ c && c ≤ 'z'

def isAsciiUpper (c : Char) : Bool := 'A' ≤ c && c ≤ 'Z'

def isAsciiAlpha (c : Char) : Bool := isAsciiLower c || isAsciiUpper c

/-- Python `\w` word character (ASCII range). -/
def isWordChar (c : Char) : Bool := isAsciiAlpha c || isAsciiDigit c || c = '_'

/-- Lower-case one char (ASCII only, as the source patterns only use ASCII
case-insensitivity). -/
def lowerC (c : Char) : Char :=
  if isAsciiUpper c then Char.ofNat (c.toNat + 32) else c

def stripLeadWS (cs : List Char) : List Char := cs.dropWhile isPyWS

/-- Python str.strip on a char list. -/
def pyStripL (cs : List Char) : List Char :=
  ((cs.dropWhile isPyWS).reverse.dropWhile isPyWS).reverse

/-- Python str.strip. -/
def pyStrip (s : String) : String := String.mk (pyStripL s.toList)

/-- String.startsWith via lists (kernel-reducible, unlike substrEq). -/
def sStartsWith (s pre : String) : Bool := List.isPrefixOf pre.toList s.toList

/-- String.endsWith via lists. -/
def sEndsWith (s suf : String) : Bool := List.isSuffixOf suf.toList s.toList

/-- Case-insensitive literal prefix: returns the remainder when `pat`
(given lower-case) is a prefix of `cs` up to ASCII case. -/
def dropLitCI : List Char → List Char → Option (List Char)
  | [], cs => some cs
  | _ :: _, [] => none
  | p :: ps, c :: cs => if lowerC c = p then dropLitCI ps cs else none

/-- Case-sensitive literal prefix with remainder. -/
def dropLit : List Char → List Char → Option (List Char)
  | [], cs => some cs
  | _ :: _, [] => none
  | p :: ps, c :: cs => if c = p then dropLit ps cs else none

/-- Python text.split(sep-newline): `s.split('\n')`. -/
def splitNLApp : List Char → List (List Char)
  | [] => [[]]
  | '\n' :: rest => [] :: splitNLApp rest
  | c :: rest =>
    match splitNLApp rest with
    | [] => [[c]]
    | h :: t => (c :: h) :: t

def splitNL (s : String) : List String := (splitNLApp s.toList).map String.mk

/-- Python file.readlines(): line pieces with the terminating newline kept. -/
def readlinesL : List Char → List (List Char)
  | [] => []
  | '\n' :: rest => ['\n'] :: readlinesL rest
  | c :: rest =>
    match readlinesL rest with
    | [] => [[c]]
    | h :: t => (c :: h) :: t

def readlines (s : String) : List String := (readlinesL s.toList).map String.mk

/-- Join with newline, inverse of split('\n'). -/
def joinNL (ls : List String) : String := String.intercalate "\n" ls

/-- Python re.split on a single-char class: split at every char satisfying
`p`, keeping empty pieces (the source filters them afterwards). -/
def splitOnCharPred (p : Char → Bool) : List Char → List (List Char)
  | [] => [[]]
  | c :: rest =>
    if p c then [] :: splitOnCharPred p rest
    else
      match splitOnCharPred p rest with
      | [] => [[c]]
      | h :: t => (c :: h) :: t

def splitOnPredS (p : Char → Bool) (s : String) : List String :=
  (splitOnCharPred p s.toList).map String.mk

namespace Txt

/-- txt_parser._split_sections: the regex
`^(?:参考文献|References)\s*$` (IGNORECASE | MULTILINE) matches a line that
starts with the marker and whose remainder is whitespace.  Both returned
halves are stripped, so the match is located line-wise. -/
def isRefHeaderLine (line : String) : Bool :=
  match AutoLatex.dropLitCI "references".toList line.toList with
  | some rest => rest.all AutoLatex.isPyWS
  | none =>
    match AutoLatex.dropLit "参考文献".toList line.toList with
    | some rest => rest.all AutoLatex.isPyWS
    | none => false

def splitSections (text : String) : String × String :=
  let lines := AutoLatex.splitNL text
  match lines.findIdx? isRefHeaderLine with
  | none => (AutoLatex.pyStrip text, "")
  | some i =>
    (AutoLatex.pyStrip (AutoLatex.joinNL (lines.take i)),
     AutoLatex.pyStrip (AutoLatex.joinNL (lines.drop (i + 1))))

/-- `\b\d{4}\b` at index i of cs: four digits with word boundaries. -/
def fourDigitAt (cs : List Char) (i : Nat) : Bool :=
  (List.range 4).all (fun k => (cs.get? (i + k)).any AutoLatex.isAsciiDigit) &&
  (i = 0 || !(cs.get? (i - 1)).any AutoLatex.isWordChar) &&
  !(cs.get? (i + 4)).any AutoLatex.isWordChar

/-- txt_parser._is_noise_line third pattern
`\b\d{4}\b.*\b\d+\s*$` searched in the (stripped, newline-free) line:
a standalone four-digit number somewhere, and a digit run at the very end
whose left neighbour is a non-word char, the former ending before the
latter starts. -/
def noiseHeaderHit (cs : List Char) : Bool :=
  let n := cs.length
  let tailRun := (cs.reverse.takeWhile AutoLatex.isAsciiDigit).length
  let k := n - tailRun
  tailRun != 0 &&
  (k = 0 || !(cs.get? (k - 1)).any AutoLatex.isWordChar) &&
  (List.range n).any (fun i => fourDigitAt cs i && i + 4 ≤ k)

/-- txt_parser._is_noise_line. -/
def isNoiseLine (line : String) : Bool :=
  let s := AutoLatex.pyStripL line.toList
  if s.isEmpty then false
  else if s.all AutoLatex.isAsciiDigit then true
  else if 5 ≤ s.length && s.all (fun c => c = '-' || c = '=' || c = '_') then true
  else if noiseHeaderHit s && s.length < 100 then true
  else false

/-- txt_parser._is_list_line marker
`^\s*(?:[-*•]|\d+[\.\)]|\([0-9a-zA-Z]+\))` — returns the remainder after the
marker when it matches (the `\s+` that follows is checked separately). -/
def listMarkerRest (cs : List Char) : Option (List Char) :=
  let r := AutoLatex.stripLeadWS cs
  match r with
  | '-' :: t => some t
  | '*' :: t => some t
  | '•' :: t => some t
  | '(' :: t =>
    let ds := t.takeWhile (fun c => AutoLatex.isAsciiDigit c || AutoLatex.isAsciiAlpha c)
    if ds.isEmpty then none
    else
      match t.drop ds.length with
      | ')' :: u => some u
      | _ => none
  | _ =>
    let ds := r.takeWhile AutoLatex.isAsciiDigit
    if ds.isEmpty then none
    else
      match r.drop ds.length with
      | '.' :: u => some u
      | ')' :: u => some u
      | _ => none

/-- txt_parser._is_list_line. -/
def isListLine (line : String) : Bool :=
  match listMarkerRest line.toList with
  | some t => (t.head?).any AutoLatex.isPyWS
  | none => false

/-- The re.sub in _parse_content's list branch: strip the anchored marker
plus the following whitespace run (greedy `\s+`) once, at start only. -/
def stripListMarker (line : String) : String :=
  match listMarkerRest line.toList with
  | some t =>
    if (t.head?).any AutoLatex.isPyWS then String.mk (AutoLatex.stripLeadWS t)
    else line
  | none => line

/-- txt_parser._is_code_fence. -/
def isCodeFence (line : String) : Bool := AutoLatex.sStartsWith (AutoLatex.pyStrip line) "```"

/-- txt_parser._extract_code_language: `^BTBTBT(\w+)` on the stripped line
(BT standing for a backtick). -/
def extractCodeLanguage (line : String) : String :=
  match AutoLatex.dropLit "```".toList (AutoLatex.pyStripL line.toList) with
  | some rest =>
    let w := rest.takeWhile AutoLatex.isWordChar
    String.mk w
  | none => ""

/-- txt_parser._is_caption: `^\s*(?:Figure|Fig\.|Table|表|图)\s*\d+` (CI). -/
def isCaption (text : String) : Bool :=
  let r := AutoLatex.stripLeadWS text.toList
  let afterMarker :=
    match AutoLatex.dropLitCI "figure".toList r with
    | some t => some t
    | none =>
      match AutoLatex.dropLitCI "fig.".toList r with
      | some t => some t
      | none =>
        match AutoLatex.dropLitCI "table".toList r with
        | some t => some t
        | none =>
          match AutoLatex.dropLit "表".toList r with
          | some t => some t
          | none => AutoLatex.dropLit "图".toList r
  match afterMarker with
  | some t => ((AutoLatex.stripLeadWS t).head?).any AutoLatex.isAsciiDigit
  | none => false

/-- txt_parser._is_blockquote_line. -/
def isBlockquoteLine (line : String) : Bool := AutoLatex.sStartsWith (AutoLatex.pyStrip line) ">"

/-- txt_parser._is_ascii_table. -/
def isAsciiTable (text : String) : Bool :=
  let lines := AutoLatex.splitNL text
  if lines.length < 2 then false
  else
    let pipeLines := (lines.filter (fun l => l.toList.contains '|')).length
    let sepLines := (lines.filter (fun l => l.toList.contains '+' && l.toList.contains '-')).length
    2 ≤ pipeLines && 1 ≤ sepLines

/-- Tail condition of `\s+(.+)` with no DOTALL: at least one whitespace char
is consumed and the next char exists and is not a newline. -/
def wsThenChar (rest : List Char) : Bool :=
  let run := (rest.takeWhile AutoLatex.isPyWS).length
  (List.range run).any (fun i => (rest.get? (i + 1)).any (fun c => !(c = '\n')))

/-- Greedy `\d+(?:\.\d+)*` with the number accumulated; fuel-bounded
(each step consumes at least two chars). -/
def dottedExt : Nat → List Char → List Char → List Char × List Char
  | 0, acc, cs => (acc, cs)
  | fuel + 1, acc, cs =>
    match cs with
    | '.' :: t =>
      let ds := t.takeWhile AutoLatex.isAsciiDigit
      if ds.isEmpty then (acc, cs)
      else dottedExt fuel (acc ++ '.' :: ds) (t.drop ds.length)
    | _ => (acc, cs)

def dottedNumber (cs : List Char) : Option (List Char × List Char) :=
  let ds := cs.takeWhile AutoLatex.isAsciiDigit
  if ds.isEmpty then none
  else some (dottedExt cs.length ds (cs.drop ds.length))

/-- Python str.isupper over ASCII: at least one cased char and none of the
cased chars lower-case. -/
def pyIsUpper (cs : List Char) : Bool :=
  cs.any AutoLatex.isAsciiAlpha && cs.all (fun c => !AutoLatex.isAsciiLower c)

def isRomanChar (c : Char) : Bool :=
  c = 'I' || c = 'V' || c = 'X' || c = 'i' || c = 'v' || c = 'x'

/-- txt_parser._guess_heading_level: (is-heading, level, number). -/
def guessHeadingLevel (text : String) : Bool × Nat × String :=
  let s := AutoLatex.pyStripL text.toList
  let numberBranch :=
    match dottedNumber s with
    | some (num, rest) =>
      if wsThenChar rest then some (true, num.count '.' + 1, String.mk num) else none
    | none => none
  match numberBranch with
  | some r => r
  | none =>
    let run := s.takeWhile isRomanChar
    let romanOk :=
      !run.isEmpty &&
      (match s.drop run.length with
       | '.' :: rest => wsThenChar rest
       | _ => false) &&
      pyIsUpper s
    if romanOk then (true, 1, String.mk run)
    else if s.length < 80 && pyIsUpper s &&
        !((s.getLast?).any (fun c => c = '.' || c = '!' || c = '?')) then
      (true, 1, "")
    else (false, 0, "")

/-- Tail `\s*\$\$\s*$` of the block-formula pattern: whitespace, the two
dollars, then only whitespace to the end of the string. -/
def fbTailDollar (r : List Char) : Bool :=
  match AutoLatex.stripLeadWS r with
  | '$' :: '$' :: rest => rest.all AutoLatex.isPyWS
  | _ => false

/-- Tail `\s*\\\]\s*$`. -/
def fbTailBracket (r : List Char) : Bool :=
  match AutoLatex.stripLeadWS r with
  | '\\' :: ']' :: rest => rest.all AutoLatex.isPyWS
  | _ => false

/-- Lazy `(.*?)` before a tail pattern: the shortest leading group whose
remainder satisfies the tail. -/
def fbLazySplit (tail : List Char → Bool) : List Char → Option (List Char)
  | [] => if tail [] then some [] else none
  | c :: t =>
    if tail (c :: t) then some []
    else (fbLazySplit tail t).map (c :: ·)

/-- txt_parser._detect_formula_block:
`^\s*\$\$\s*(.*?)\s*\$\$\s*$` then `^\s*\\\[\s*(.*?)\s*\\\]\s*$`
(DOTALL), the group stripped. -/
def detectFormulaBlock (text : String) : Option String :=
  let t1 := AutoLatex.stripLeadWS text.toList
  let dollarBranch :=
    match AutoLatex.dropLit "$$".toList t1 with
    | some body =>
      (fbLazySplit fbTailDollar (AutoLatex.stripLeadWS body)).map
        (fun g => AutoLatex.pyStrip (String.mk g))
    | none => none
  match dollarBranch with
  | some v => some v
  | none =>
    match AutoLatex.dropLit "\\[".toList t1 with
    | some body =>
      (fbLazySplit fbTailBracket (AutoLatex.stripLeadWS body)).map
        (fun g => AutoLatex.pyStrip (String.mk g))
    | none => none

/-- findall of `(?<!\$)\$(?!\$)([^$]+)\$(?!\$)` (txt and md inline
formulas): scanning char by char with the previous char tracked for the
lookbehind, resuming after the closing dollar of a match. -/
def inlineFormulaAux : Nat → Option Char → List Char → List (List Char)
  | 0, _, _ => []
  | _ + 1, _, [] => []
  | fuel + 1, prev, '$' :: t =>
    if prev = some '$' then inlineFormulaAux fuel (some '$') t
    else
      match t with
      | '$' :: _ => inlineFormulaAux fuel (some '$') t
      | _ =>
        let body := t.takeWhile (fun c => !(c = '$'))
        match t.drop body.length with
        | '$' :: '$' :: _ => inlineFormulaAux fuel (some '$') t
        | '$' :: u =>
          if body.isEmpty then inlineFormulaAux fuel (some '$') t
          else body :: inlineFormulaAux fuel (some '$') u
        | _ => inlineFormulaAux fuel (some '$') t
  | fuel + 1, _, c :: t => inlineFormulaAux fuel (some c) t

/-- txt_parser._extract_inline_formulas (each group stripped). -/
def extractInlineFormulas (text : String) : List String :=
  (inlineFormulaAux text.toList.length none text.toList).map
    (fun g => AutoLatex.pyStrip (String.mk g))

/-- Char class `[0-9,\-\s]` of the numeric reference pattern. -/
def numericMarkerClass (c : Char) : Bool :=
  AutoLatex.isAsciiDigit c || c = ',' || c = '-' || AutoLatex.isPyWS c

/-- findall of txt's `\[[0-9,\-\s]+\]` (no task-list exclusion): the body is
the maximal class run after the bracket and must be followed by the closing
bracket. -/
def txtNumericScan : Nat → List Char → List (List Char)
  | 0, _ => []
  | _ + 1, [] => []
  | fuel + 1, c :: t =>
    if c = '[' then
      let body := t.takeWhile numericMarkerClass
      if body.isEmpty then txtNumericScan fuel t
      else if (t.drop body.length).head? = some ']' then
        ('[' :: body ++ [']']) :: txtNumericScan fuel (t.drop (body.length + 1))
      else txtNumericScan fuel t
    else txtNumericScan fuel t

/-- Char class `[A-Za-z\s,\.]` of the author-year pattern. -/
def ayClass (c : Char) : Bool :=
  AutoLatex.isAsciiAlpha c || AutoLatex.isPyWS c || c = ',' || c = '.'

/-- One attempted match of `[A-Z][A-Za-z\s,\.]+\d{4}[a-z]?\)` after an open
parenthesis; returns the chars inside the parentheses and the remainder. -/
def ayMatch (t : List Char) : Option (List Char × List Char) :=
  match t with
  | [] => none
  | c :: r =>
    if AutoLatex.isAsciiUpper c then
      let run := r.takeWhile ayClass
      if run.isEmpty then none
      else
        match r.drop run.length with
        | d1 :: d2 :: d3 :: d4 :: r3 =>
          if [d1, d2, d3, d4].all AutoLatex.isAsciiDigit then
            match r3 with
            | ')' :: u => some (c :: run ++ [d1, d2, d3, d4], u)
            | e :: ')' :: u =>
              if AutoLatex.isAsciiLower e then
                some (c :: run ++ [d1, d2, d3, d4, e], u)
              else none
            | _ => none
          else none
        | _ => none
    else none

/-- findall of `\([A-Z][A-Za-z\s,\.]+\d{4}[a-z]?\)` (txt and md author-year
references; the whole match is returned). -/
def authorYearScan : Nat → List Char → List (List Char)
  | 0, _ => []
  | _ + 1, [] => []
  | fuel + 1, c :: t =>
    if c = '(' then
      match ayMatch t with
      | some (m, u) => ('(' :: m ++ [')']) :: authorYearScan fuel u
      | none => authorYearScan fuel t
    else authorYearScan fuel t

/-- txt_parser._extract_reference_markers: numeric matches then author-year
matches. -/
def extractReferenceMarkers (text : String) : List String :=
  ((txtNumericScan text.toList.length text.toList).map String.mk) ++
  ((authorYearScan text.toList.length text.toList).map String.mk)

end Txt

/-- Author record `{name, affiliation, email}`. -/
structure Author where
  name : String
  affiliation : String
  email : String
deriving Repr, DecidableEq

/-- Bibliography entry dict shared by the three extractors. -/
structure BibEntry where
  id : String
  type : String
  authors : List Author
  title : String
  venue : String
  year : String
  raw : String
deriving Repr, DecidableEq

/-- The placeholder entry appended when no references were found
(identical literal in all three parse_*_to_json functions). -/
def emptyBibEntry : BibEntry :=
  { id := "", type := "misc", authors := [], title := "", venue := "", year := "", raw := "" }

/-- Substring containment, Python's `needle in hay`. -/
def hasSubL (pat : List Char) : List Char → Bool
  | [] => pat.isEmpty
  | c :: t => List.isPrefixOf pat (c :: t) || hasSubL pat t

def hasSub (pat : String) (hay : String) : Bool := hasSubL pat.toList hay.toList

namespace Txt

/-- After one of `作者|Author|Authors` try `\s*[:：]` (used by the re.sub
cleaning the author line); alternation backtracks from Author to Authors. -/
def authorMarkerTry (cs : List Char) : Option (List Char) :=
  let colonTail : List Char → Option (List Char) := fun rest =>
    match rest.dropWhile AutoLatex.isPyWS with
    | ':' :: u => some u
    | '：' :: u => some u
    | _ => none
  match AutoLatex.dropLit "作者".toList cs with
  | some rest => colonTail rest
  | none =>
    match AutoLatex.dropLit "Author".toList cs with
    | some rest =>
      match colonTail rest with
      | some u => some u
      | none =>
        match rest with
        | 's' :: rest2 => colonTail rest2
        | _ => none
    | none => none

/-- re.sub(r"(作者|Author|Authors)\s*[:：]", "", line): every
non-overlapping occurrence removed, scanning left to right. -/
def removeAuthorMarkerAux : Nat → List Char → List Char
  | 0, cs => cs
  | _ + 1, [] => []
  | fuel + 1, c :: t =>
    match authorMarkerTry (c :: t) with
    | some u => removeAuthorMarkerAux fuel u
    | none => c :: removeAuthorMarkerAux fuel t

/-- `\s*[:：]?\s*` after an abstract/keywords marker. -/
def colonWsTail (cs : List Char) : List Char :=
  match cs.dropWhile AutoLatex.isPyWS with
  | ':' :: u => u.dropWhile AutoLatex.isPyWS
  | '：' :: u => u.dropWhile AutoLatex.isPyWS
  | r => r

/-- `\s*\n` ahead: the whitespace run starting here contains a newline
(second half of the `\n\s*\n` terminator). -/
def blankRun (t : List Char) : Bool := (t.takeWhile AutoLatex.isPyWS).contains '\n'

/-- `\n\d+\.\s` terminator after the newline. -/
def numDotStop (t : List Char) : Bool :=
  let ds := t.takeWhile AutoLatex.isAsciiDigit
  !ds.isEmpty &&
  (match t.drop ds.length with
   | '.' :: u => (u.head?).any AutoLatex.isPyWS
   | _ => false)

/-- Terminator of the 中文摘要 search: `\n\s*\n|\n关键词|\nAbstract|\Z`
("Abstract" case-sensitive there). -/
def zhAbstractStop : List Char → Bool
  | [] => true
  | '\n' :: t =>
    blankRun t || (AutoLatex.dropLit "关键词".toList t).isSome ||
      (AutoLatex.dropLit "Abstract".toList t).isSome
  | _ => false

/-- Terminator of the English abstract search:
`\n\s*\n|\nKeywords|\n关键词|\Z` (IGNORECASE). -/
def enAbstractStop : List Char → Bool
  | [] => true
  | '\n' :: t =>
    blankRun t || (AutoLatex.dropLitCI "keywords".toList t).isSome ||
      (AutoLatex.dropLit "关键词".toList t).isSome
  | _ => false

/-- Terminator of the 中文 keywords search:
`\n\s*\n|\nKeywords|\n\d+\.\s|\Z` ("Keywords" case-sensitive there). -/
def zhKeywordsStop : List Char → Bool
  | [] => true
  | '\n' :: t =>
    blankRun t || (AutoLatex.dropLit "Keywords".toList t).isSome || numDotStop t
  | _ => false

/-- Terminator of the English keywords search:
`\n\s*\n|\n关键词|\n\d+\.\s|\Z`. -/
def enKeywordsStop : List Char → Bool
  | [] => true
  | '\n' :: t =>
    blankRun t || (AutoLatex.dropLit "关键词".toList t).isSome || numDotStop t
  | _ => false

/-- Leftmost occurrence of `摘\s*要`, returning the remainder after 要. -/
def findZhAbstractTail : Nat → List Char → Option (List Char)
  | 0, _ => none
  | _ + 1, [] => none
  | fuel + 1, c :: t =>
    if c = '摘' then
      match t.dropWhile AutoLatex.isPyWS with
      | '要' :: u => some u
      | _ => findZhAbstractTail fuel t
    else findZhAbstractTail fuel t

/-- Leftmost case-insensitive occurrence of a literal, with remainder. -/
def findLitCITail : Nat → List Char → List Char → Option (List Char)
  | 0, _, _ => none
  | fuel + 1, pat, cs =>
    match AutoLatex.dropLitCI pat cs with
    | some u => some u
    | none =>
      match cs with
      | [] => none
      | _ :: t => findLitCITail fuel pat t

/-- Leftmost case-sensitive occurrence of a literal, with remainder. -/
def findLitTail : Nat → List Char → List Char → Option (List Char)
  | 0, _, _ => none
  | fuel + 1, pat, cs =>
    match AutoLatex.dropLit pat cs with
    | some u => some u
    | none =>
      match cs with
      | [] => none
      | _ :: t => findLitTail fuel pat t

/-- `\s*[:：]?\s*(.*?)` up to the given terminator, group stripped. -/
def searchGroup (stop : List Char → Bool) (tail : List Char) : String :=
  match fbLazySplit stop (colonWsTail tail) with
  | some g => AutoLatex.pyStrip (String.mk g)
  | none => ""

def isKwSep (c : Char) : Bool := c = ';' || c = ',' || c = '，' || c = '、'

/-- Split a keyword/author field on `[;,，、]`, strip, drop empties. -/
def splitField (s : String) : List String :=
  ((AutoLatex.splitOnPredS isKwSep s).map AutoLatex.pyStrip).filter (fun x => x ≠ "")

/-- txt_parser metadata dict. -/
structure Metadata where
  title : String
  authors : List Author
  abstract : String
  abstractZh : String
  abstractEn : String
  keywords : List String
  keywordsZh : List String
  keywordsEn : List String
deriving Repr, DecidableEq

/-- txt_parser._parse_metadata over the readlines list and the full text. -/
def parseMetadata (lines : List String) (fullText : String) : Metadata :=
  let title := match lines.head? with | some l => AutoLatex.pyStrip l | none => ""
  let authorLine :=
    ((lines.drop 1).take 4).find? (fun l => hasSub "作者" l || hasSub "Author" l)
  let authors :=
    match authorLine with
    | some l =>
      let cleaned :=
        AutoLatex.pyStrip (String.mk (removeAuthorMarkerAux l.toList.length l.toList))
      (splitField cleaned).map (fun n => ({ name := n, affiliation := "", email := "" } : Author))
    | none => []
  let ft := fullText.toList
  let abstractZh :=
    match findZhAbstractTail ft.length ft with
    | some tail => searchGroup zhAbstractStop tail
    | none => ""
  let abstractEn :=
    match findLitCITail ft.length "abstract".toList ft with
    | some tail => searchGroup enAbstractStop tail
    | none => ""
  let keywordsZh :=
    match findLitTail ft.length "关键词".toList ft with
    | some tail => splitField (searchGroup zhKeywordsStop tail)
    | none => []
  let keywordsEn :=
    match findLitCITail ft.length "keywords".toList ft with
    | some tail => splitField (searchGroup enKeywordsStop tail)
    | none => []
  { title := title
    authors := authors
    abstract := if abstractEn ≠ "" then abstractEn else abstractZh
    abstractZh := abstractZh
    abstractEn := abstractEn
    keywords := if keywordsEn ≠ [] then keywordsEn else keywordsZh
    keywordsZh := keywordsZh
    keywordsEn := keywordsEn }

/-- Content-block dicts emitted by txt_parser._parse_content; the
constructor tags carry the "type" discriminator strings written by the
source (note "quote", "caption", "formula_inline", "reference_marker"). -/
inductive Block where
  | list (ordered : Bool) (items : List String)
  | code (language : String) (text : String)
  | quote (text : String)
  | table (format : String) (raw : String)
  | formulaBlock (latex : String)
  | caption (text : String)
  | heading (level : Nat) (number : String) (text : String)
  | paragraph (text : String)
  | formulaInline (latex : String)
  | referenceMarker (marker : String)
deriving Repr, DecidableEq

/-- The "type" field of the dict each constructor stands for. -/
def Block.typeName : Block → String
  | .list _ _ => "list"
  | .code _ _ => "code"
  | .quote _ => "quote"
  | .table _ _ => "table"
  | .formulaBlock _ => "formula_block"
  | .caption _ => "caption"
  | .heading _ _ _ => "heading"
  | .paragraph _ => "paragraph"
  | .formulaInline _ => "formula_inline"
  | .referenceMarker _ => "reference_marker"

/-- `^\s*\d+[\.\)]` on the first buffer line (ordered-list check). -/
def orderedCheck (line : String) : Bool :=
  let r := AutoLatex.stripLeadWS line.toList
  let ds := r.takeWhile AutoLatex.isAsciiDigit
  !ds.isEmpty &&
  (match r.drop ds.length with
   | '.' :: _ => true
   | ')' :: _ => true
   | _ => false)

/-- State of the line-buffered machine in txt_parser._parse_content. -/
structure PCState where
  blocks : List Block
  buffer : List String
  currentType : Option String
  codeLanguage : String
  inCodeBlock : Bool
deriving Repr, DecidableEq

def initPCState : PCState :=
  { blocks := [], buffer := [], currentType := none, codeLanguage := "", inCodeBlock := false }

/-- flush_buffer of txt_parser._parse_content. -/
def flushBuffer (st : PCState) : PCState :=
  if st.buffer.isEmpty then st
  else
    let text := AutoLatex.pyStrip (AutoLatex.joinNL st.buffer)
    if text = "" then { st with buffer := [], currentType := none }
    else if st.currentType = some "list_item" then
      let items := st.buffer.map stripListMarker
      let ordered := orderedCheck (st.buffer.headD "")
      { st with blocks := st.blocks ++ [.list ordered items], buffer := [], currentType := none }
    else if st.currentType = some "code" then
      { st with blocks := st.blocks ++ [.code st.codeLanguage text], buffer := [],
                currentType := none, codeLanguage := "" }
    else if st.currentType = some "blockquote" then
      let quoteText :=
        AutoLatex.joinNL (st.buffer.map
          (fun l => AutoLatex.pyStrip (String.mk (l.toList.dropWhile (fun c => c = '>')))))
      { st with blocks := st.blocks ++ [.quote quoteText], buffer := [], currentType := none }
    else
      let newBlocks :=
        if isAsciiTable text then [Block.table "ascii" text]
        else
          -- walrus `elif formula := _detect_formula_block(text)`: an empty
          -- group is falsy in Python and falls through
          let fb := (detectFormulaBlock text).getD ""
          if fb ≠ "" then [Block.formulaBlock fb]
          else
            if isCaption text then [Block.caption text]
            else
              let g := guessHeadingLevel text
              if g.1 then [Block.heading g.2.1 g.2.2 text]
              else
                [Block.paragraph text] ++
                (extractInlineFormulas text).map Block.formulaInline ++
                (extractReferenceMarkers text).map Block.referenceMarker
      { st with blocks := st.blocks ++ newBlocks, buffer := [], currentType := none }

/-- One line of the scan loop in txt_parser._parse_content. -/
def pcStep (st : PCState) (line : String) : PCState :=
  let stripped := AutoLatex.pyStrip line
  if isNoiseLine line then st
  else if isCodeFence line then
    (if st.inCodeBlock then { flushBuffer st with inCodeBlock := false }
     else { flushBuffer st with
             inCodeBlock := true,
             currentType := some "code",
             codeLanguage := extractCodeLanguage line })
  else if st.inCodeBlock then { st with buffer := st.buffer ++ [line] }
  else if stripped = "" then flushBuffer st
  else if isBlockquoteLine line then
    let st1 :=
      if st.currentType = some "blockquote" then st
      else { flushBuffer st with currentType := some "blockquote" }
    { st1 with buffer := st1.buffer ++ [line] }
  else if isListLine line then
    let st1 :=
      if st.currentType = some "list_item" then st
      else { flushBuffer st with currentType := some "list_item" }
    { st1 with buffer := st1.buffer ++ [line] }
  else if AutoLatex.sStartsWith line "    " || AutoLatex.sStartsWith line "\t" then
    let st1 :=
      if st.currentType = some "code" then st
      else { flushBuffer st with currentType := some "code", codeLanguage := "" }
    { st1 with buffer := st1.buffer ++ [line] }
  else
    let st1 :=
      if st.currentType = some "list_item" || st.currentType = some "blockquote" then
        flushBuffer st
      else st
    let st2 :=
      if st1.currentType = none then { st1 with currentType := some "paragraph" } else st1
    { st2 with buffer := st2.buffer ++ [line] }

/-- txt_parser._parse_content. -/
def parseContent (mainText : String) : List Block :=
  (flushBuffer ((AutoLatex.splitNL mainText).foldl pcStep initPCState)).blocks

/-- re.split(r"\n\s*\n", text): a separator is a newline, the greedy
whitespace run that follows up to its last newline, and that newline. -/
def splitBlankAux : Nat → List Char → List Char → List (List Char)
  | 0, acc, cs => [acc.reverse ++ cs]
  | _ + 1, acc, [] => [acc.reverse]
  | fuel + 1, acc, '\n' :: t =>
    let w := t.takeWhile AutoLatex.isPyWS
    if w.contains '\n' then
      let lastNL := w.length - 1 - (w.reverse.takeWhile (fun c => !(c = '\n'))).length
      acc.reverse :: splitBlankAux fuel [] (t.drop (lastNL + 1))
    else splitBlankAux fuel ('\n' :: acc) t
  | fuel + 1, acc, c :: t => splitBlankAux fuel (c :: acc) t

def splitBlank (text : String) : List String :=
  (splitBlankAux text.toList.length [] text.toList).map String.mk

/-- Greedy `(?:[,\-]\d+)*` continuation of the bracketed id group. -/
def bibIdExt : Nat → List Char → List Char → List Char × List Char
  | 0, acc, cs => (acc, cs)
  | _ + 1, acc, [] => (acc, [])
  | fuel + 1, acc, c :: t =>
    if c = ',' || c = '-' then
      let ds := t.takeWhile AutoLatex.isAsciiDigit
      if ds.isEmpty then (acc, c :: t)
      else bibIdExt fuel (acc ++ c :: ds) (t.drop ds.length)
    else (acc, c :: t)

/-- re.match(`^\[(\d+(?:[,\-]\d+)*)\]|^(\d+)[\.\)]|^\((\d+)\)`, s): the
first non-None group when one of the anchored branches matches. -/
def bibIdGroups (cs : List Char) : Option String :=
  let b1 :=
    match cs with
    | '[' :: t =>
      let ds := t.takeWhile AutoLatex.isAsciiDigit
      if ds.isEmpty then none
      else
        let (grp, rest) := bibIdExt t.length ds (t.drop ds.length)
        match rest with
        | ']' :: _ => some (String.mk grp)
        | _ => none
    | _ => none
  match b1 with
  | some v => some v
  | none =>
    let ds := cs.takeWhile AutoLatex.isAsciiDigit
    if !ds.isEmpty &&
        (match cs.drop ds.length with
         | '.' :: _ => true
         | ')' :: _ => true
         | _ => false) then
      some (String.mk ds)
    else
      match cs with
      | '(' :: t =>
        let ds2 := t.takeWhile AutoLatex.isAsciiDigit
        if !ds2.isEmpty &&
            (match t.drop ds2.length with
             | ')' :: _ => true
             | _ => false) then
          some (String.mk ds2)
        else none
      | _ => none

/-- txt_parser._parse_bibliography.  When the blank-line split produced a
single item and the text is long, the source re-segments by numbered lines
but appends the segments to the original one-item list without clearing
it. -/
def parseBibliography (text : String) : List BibEntry :=
  if text = "" then []
  else
    let items0 := splitBlank text
    let items :=
      if items0.length = 1 && 100 < text.toList.length then
        let fin :=
          (AutoLatex.splitNL text).foldl
            (fun (st : List String × List String) line =>
              if (bibIdGroups (AutoLatex.pyStrip line).toList).isSome then
                (if st.2.isEmpty then st.1 else st.1 ++ [AutoLatex.joinNL st.2], [line])
              else if !st.2.isEmpty || AutoLatex.pyStrip line ≠ "" then
                (st.1, st.2 ++ [line])
              else st)
            ([], [])
        items0 ++ (if fin.2.isEmpty then fin.1 else fin.1 ++ [AutoLatex.joinNL fin.2])
      else items0
    items.filterMap (fun item =>
      let entry := AutoLatex.pyStrip item
      if entry = "" then none
      else
        some { id := (bibIdGroups entry.toList).getD "", type := "misc", authors := [],
               title := "", venue := "", year := "", raw := entry })

/-- The document dict returned by txt_parser.parse_txt_to_json. -/
structure Doc where
  metadata : Metadata
  content : List Block
  bibliography : List BibEntry
deriving Repr, DecidableEq

/-- txt_parser.parse_txt_to_json as a function of the file's text
(readlines then "".join reconstitutes exactly the text). -/
def parseTxtToJson (fileContent : String) : Doc :=
  let lines := AutoLatex.readlines fileContent
  let metadata := parseMetadata lines fileContent
  let st := splitSections fileContent
  let contentBlocks := parseContent st.1
  let bibliography0 := parseBibliography st.2
  let bibliography := if bibliography0.isEmpty then [AutoLatex.emptyBibEntry] else bibliography0
  { metadata := metadata, content := contentBlocks, bibliography := bibliography }

end Txt

namespace Docx

/-- One text run of a Word paragraph: text plus the bold/italic/underline
flags read by _build_inlines_from_runs (None and False coincide in the
source's truthiness checks). -/
structure Run where
  text : String
  bold : Bool
  italic : Bool
  underline : Bool
deriving Repr, DecidableEq

/-- A body paragraph: the attributes of the python-docx Paragraph object the
source reads.  `listInfo` is the `numPr` (numId, ilvl) pair of
_get_list_info when present; `images` are the relative paths produced for
the paragraph's embedded images by _extract_images_from_paragraph /
_save_image (relationship resolution, uuid naming and the file write are
external effects, so the resulting paths are part of the modelled input). -/
structure Para where
  styleName : String
  runs : List Run
  listInfo : Option (Int × Nat)
  images : List String
deriving Repr, DecidableEq

/-- python-docx paragraph.text: concatenation of the run texts. -/
def Para.text (p : Para) : String := String.join (p.runs.map Run.text)

/-- A body-level block of the document: _iter_block_items yields paragraphs
and tables in document order; a table is its row-major grid of cell
texts. -/
inductive Node where
  | para (p : Para)
  | table (rows : List (List String))
deriving Repr, DecidableEq

/-- The document body. -/
abbrev Document := List Node

/-- document.paragraphs: the body-level paragraphs in order. -/
def paragraphs (doc : Document) : List Para :=
  doc.filterMap (fun n => match n with | .para p => some p | .table _ => none)

/-- docx_parser._guess_heading_level: `Heading\s*(\d)` (IGNORECASE) then
`标题\s*(\d)` against the style name. -/
def guessHeadingLevel (styleName : String) : Option Nat :=
  let digitAfter : List Char → Option Nat := fun rest =>
    match rest.dropWhile AutoLatex.isPyWS with
    | d :: _ => if AutoLatex.isAsciiDigit d then some (d.toNat - 48) else none
    | [] => none
  match AutoLatex.dropLitCI "heading".toList styleName.toList with
  | some rest =>
    match digitAfter rest with
    | some l => some l
    | none =>
      match AutoLatex.dropLit "标题".toList styleName.toList with
      | some rest2 => digitAfter rest2
      | none => none
  | none =>
    match AutoLatex.dropLit "标题".toList styleName.toList with
    | some rest2 => digitAfter rest2
    | none => none

/-- Result dict of docx_parser._detect_manual_list_item. -/
structure ManualItem where
  number : String
  text : String
  format : String
deriving Repr, DecidableEq

/-- `\s+(.+)$` tail of the manual-list patterns (with re.DOTALL): at least
one whitespace char followed by at least one char; the group is stripped by
the caller, which equals stripping everything after the whitespace run. -/
def manualTail (rest : List Char) : Option String :=
  match rest with
  | c :: _ :: _ =>
    if AutoLatex.isPyWS c then
      some (AutoLatex.pyStrip (String.mk (rest.dropWhile AutoLatex.isPyWS)))
    else none
  | _ => none

/-- docx_parser._detect_manual_list_item: the five anchored patterns tried
in order (parenthesis, dot, right_paren, letter, roman). -/
def detectManualListItem (text : String) : Option ManualItem :=
  let cs := text.toList
  let p1 :=
    match cs with
    | '(' :: t =>
      let ds := t.takeWhile AutoLatex.isAsciiDigit
      if ds.isEmpty then none
      else
        match t.drop ds.length with
        | ')' :: rest =>
          (manualTail rest).map (fun tx =>
            ({ number := String.mk ds, text := tx, format := "parenthesis" } : ManualItem))
        | _ => none
    | _ => none
  match p1 with
  | some m => some m
  | none =>
    let ds := cs.takeWhile AutoLatex.isAsciiDigit
    let p23 :=
      if ds.isEmpty then none
      else
        match cs.drop ds.length with
        | '.' :: rest =>
          (manualTail rest).map (fun tx =>
            ({ number := String.mk ds, text := tx, format := "dot" } : ManualItem))
        | ')' :: rest =>
          (manualTail rest).map (fun tx =>
            ({ number := String.mk ds, text := tx, format := "right_paren" } : ManualItem))
        | _ => none
    match p23 with
    | some m => some m
    | none =>
      let p4 :=
        match cs with
        | c :: ')' :: rest =>
          if AutoLatex.isAsciiLower c then
            (manualTail rest).map (fun tx =>
              ({ number := String.mk [c], text := tx, format := "letter" } : ManualItem))
          else none
        | _ => none
      match p4 with
      | some m => some m
      | none =>
        let run := cs.takeWhile Txt.isRomanChar
        if run.isEmpty then none
        else
          match cs.drop run.length with
          | '.' :: rest =>
            (manualTail rest).map (fun tx =>
              ({ number := String.mk run, text := tx, format := "roman" } : ManualItem))
          | _ => none

/-- docx_parser._detect_formula_block: the stripped text must match
`^\s*(\$\$[\s\S]+?\$\$|\\\[[\s\S]+?\\\])\s*$` and start/end with the
matching delimiters, which amounts to: delimited at both ends with at least
one char in between; returns text[2:-2].strip(). -/
def detectFormulaBlock (text : String) : Option String :=
  let t := AutoLatex.pyStrip text
  if AutoLatex.sStartsWith t "$$" && AutoLatex.sEndsWith t "$$" && 5 ≤ t.toList.length then
    some (AutoLatex.pyStrip (String.mk (t.toList.drop 2 |>.dropLast.dropLast)))
  else if AutoLatex.sStartsWith t "\\[" && AutoLatex.sEndsWith t "\\]" && 5 ≤ t.toList.length then
    some (AutoLatex.pyStrip (String.mk (t.toList.drop 2 |>.dropLast.dropLast)))
  else none

/-- findall of docx's `\$(?!\$)([^$]+)\$(?!\$)` (no lookbehind, groups not
stripped). -/
def inlineFormulaNoLB : Nat → List Char → List (List Char)
  | 0, _ => []
  | _ + 1, [] => []
  | fuel + 1, '$' :: t =>
    (match t with
     | '$' :: _ => inlineFormulaNoLB fuel t
     | _ =>
       let body := t.takeWhile (fun c => !(c = '$'))
       match t.drop body.length with
       | '$' :: '$' :: _ => inlineFormulaNoLB fuel t
       | '$' :: u =>
         if body.isEmpty then inlineFormulaNoLB fuel t
         else body :: inlineFormulaNoLB fuel u
       | _ => inlineFormulaNoLB fuel t)
  | fuel + 1, _ :: t => inlineFormulaNoLB fuel t

def extractInlineFormulas (text : String) : List String :=
  (inlineFormulaNoLB text.toList.length text.toList).map String.mk

/-- The negative lookahead `(?![\sxX\*]\])` right after the opening
bracket. -/
def lookaheadBad (t : List Char) : Bool :=
  match t with
  | a :: ']' :: _ => AutoLatex.isPyWS a || a = 'x' || a = 'X' || a = '*'
  | _ => false

/-- findall of `\[(?![\sxX\*]\])([0-9,\-\s]+)\]`: the returned strings are
the bodies without the brackets (the pattern captures only the class
run). -/
def numericScan : Nat → List Char → List (List Char)
  | 0, _ => []
  | _ + 1, [] => []
  | fuel + 1, c :: t =>
    if c = '[' then
      if lookaheadBad t then numericScan fuel t
      else
        let body := t.takeWhile Txt.numericMarkerClass
        if body.isEmpty then numericScan fuel t
        else if (t.drop body.length).head? = some ']' then
          body :: numericScan fuel (t.drop (body.length + 1))
        else numericScan fuel t
    else numericScan fuel t

/-- `[A-Za-z][^)]*\d{4}[a-z]?` check on the chars between the
parentheses. -/
def ayEnds (mid : List Char) : Bool :=
  let rev := mid.reverse
  (5 ≤ mid.length && (rev.take 4).all AutoLatex.isAsciiDigit) ||
  (6 ≤ mid.length &&
    (match rev with
     | e :: rest => AutoLatex.isAsciiLower e && (rest.take 4).all AutoLatex.isAsciiDigit
     | [] => false))

/-- findall of docx's `\([A-Za-z][^)]*\d{4}[a-z]?\)` (whole match
returned): the parenthesised region runs to the first closing paren. -/
def authorYearScan : Nat → List Char → List (List Char)
  | 0, _ => []
  | _ + 1, [] => []
  | fuel + 1, c :: t =>
    if c = '(' then
      if (t.head?).any AutoLatex.isAsciiAlpha then
        let mid := t.takeWhile (fun x => !(x = ')'))
        if (t.drop mid.length).head? = some ')' then
          if ayEnds mid then
            ('(' :: mid ++ [')']) :: authorYearScan fuel (t.drop (mid.length + 1))
          else authorYearScan fuel t
        else authorYearScan fuel t
      else authorYearScan fuel t
    else authorYearScan fuel t

/-- docx_parser._extract_reference_markers. -/
def extractReferenceMarkers (text : String) : List String :=
  ((numericScan text.toList.length text.toList).map String.mk) ++
  ((authorYearScan text.toList.length text.toList).map String.mk)

/-- Inline run dict of _build_inlines_from_runs: bold/italic/underline keys
are present exactly when true. -/
structure Inline where
  text : String
  bold : Bool
  italic : Bool
  underline : Bool
deriving Repr, DecidableEq

/-- docx_parser._build_inlines_from_runs. -/
def buildInlines (p : Para) : List Inline :=
  p.runs.filterMap (fun r =>
    if r.text = "" then none
    else some { text := r.text, bold := r.bold, italic := r.italic, underline := r.underline })

def pyLower (s : String) : String := String.mk (s.toList.map AutoLatex.lowerC)

/-- Python len(text.split()): number of maximal non-whitespace runs. -/
def wordCount (s : String) : Nat :=
  ((AutoLatex.splitOnPredS AutoLatex.isPyWS s).filter (fun w => w ≠ "")).length

/-- Metadata dict of docx_parser._parse_metadata. -/
structure Metadata where
  title : String
  authors : List Author
  abstract : String
  keywords : List String
deriving Repr, DecidableEq

/-- First loop of _parse_metadata: both branches set the title to the first
non-empty paragraph's stripped text and break. -/
def findTitle : List Para → String
  | [] => ""
  | p :: rest =>
    let text := AutoLatex.pyStrip p.text
    if text = "" then findTitle rest
    else text

/-- Second loop of _parse_metadata: paragraphs before the
abstract/摘要 marker, skipping the title and long lines. -/
def authorCandidates (title : String) : List Para → List String
  | [] => []
  | p :: rest =>
    let text := AutoLatex.pyStrip p.text
    if text = "" then authorCandidates title rest
    else if (AutoLatex.dropLitCI "abstract".toList (pyLower text).toList).isSome ||
        (AutoLatex.dropLit "摘要".toList (pyLower text).toList).isSome then []
    else if text = title then authorCandidates title rest
    else if wordCount text ≤ 20 then text :: authorCandidates title rest
    else authorCandidates title rest

def authorSegSep (c : Char) : Bool :=
  c = ';' || c = '、' || c = '，' || c = ',' || c = '\n'

/-- re.match(`([^(]+)(?:\(([^)]+)\))?`, segment) and the author dict built
from its groups. -/
def parseAuthorSegment (seg : String) : Option Author :=
  let cs := seg.toList
  match cs with
  | [] => none
  | c :: _ =>
    if c = '(' then none
    else
      let name := cs.takeWhile (fun x => !(x = '('))
      let affiliation :=
        match cs.drop name.length with
        | '(' :: t =>
          let inner := t.takeWhile (fun x => !(x = ')'))
          if !inner.isEmpty && (t.drop inner.length).head? = some ')' then
            AutoLatex.pyStrip (String.mk inner)
          else ""
        | _ => ""
      some { name := AutoLatex.pyStrip (String.mk name), affiliation := affiliation, email := "" }

def buildAuthors (candidates : List String) : List Author :=
  candidates.flatMap (fun candidate =>
    ((AutoLatex.splitOnPredS authorSegSep candidate).map AutoLatex.pyStrip).filterMap
      (fun segment =>
        if segment.length < 2 then none
        else parseAuthorSegment segment))

/-- text.split(":", 1)[-1] when a colon is present. -/
def afterFirstColon (s : String) : String :=
  let cs := s.toList
  let pre := cs.takeWhile (fun c => !(c = ':'))
  String.mk (cs.drop (pre.length + 1))

def kwSepDocx (c : Char) : Bool := c = ';' || c = ',' || c = '，' || c = '；'

/-- Keyword-paragraph handling of _parse_metadata: first separator among
`:`, `-`, `—` splits once; an empty part falls back to the whole text; a
trailing dot is removed; then split on `[;,，；]`. -/
def keywordsFromPara (text : String) : List String :=
  let cs := s0 text
  let part :=
    if cs.contains ':' then AutoLatex.pyStrip (afterFirstColon text)
    else if cs.contains '-' then
      AutoLatex.pyStrip (String.mk (cs.drop ((cs.takeWhile (fun c => !(c = '-'))).length + 1)))
    else if cs.contains '—' then
      AutoLatex.pyStrip (String.mk (cs.drop ((cs.takeWhile (fun c => !(c = '—'))).length + 1)))
    else ""
  let part := if part = "" then text else part
  let part :=
    if AutoLatex.sEndsWith part "." then String.mk part.toList.dropLast else part
  ((AutoLatex.splitOnPredS kwSepDocx part).map AutoLatex.pyStrip).filter (fun k => k ≠ "")
where s0 (t : String) : List Char := t.toList

/-- Third loop of _parse_metadata: abstract lines and keywords, with the
collecting flags of the source (the keywords branch ends the loop). -/
def metaLoop3 : List Para → List String → List String → Bool → Bool → Bool →
    List String × List String
  | [], absL, kws, _, _, _ => (absL, kws)
  | p :: rest, absL, kws, colAbs, colKw, kwDone =>
    let text := AutoLatex.pyStrip p.text
    let lower := pyLower text
    if text = "" then metaLoop3 rest absL kws colAbs colKw kwDone
    else if (AutoLatex.dropLit "abstract".toList lower.toList).isSome ||
        (AutoLatex.dropLit "摘要".toList lower.toList).isSome then
      let content :=
        if text.toList.contains ':' then AutoLatex.pyStrip (afterFirstColon text) else ""
      metaLoop3 rest (absL ++ (if content ≠ "" then [content] else [])) kws true false kwDone
    else if (AutoLatex.dropLit "keywords".toList lower.toList).isSome ||
        (AutoLatex.dropLit "关键词".toList lower.toList).isSome ||
        (AutoLatex.dropLit "index terms".toList lower.toList).isSome ||
        (AutoLatex.dropLit "key words".toList lower.toList).isSome then
      (absL, kws ++ keywordsFromPara text)
    else if colAbs then metaLoop3 rest (absL ++ [text]) kws colAbs colKw kwDone
    else if colKw then
      if wordCount text > 12 then metaLoop3 rest absL kws colAbs false true
      else metaLoop3 rest absL (kws ++ ((AutoLatex.splitOnPredS kwSepDocx text).map
        AutoLatex.pyStrip).filter (fun k => k ≠ "")) colAbs colKw kwDone
    else if kwDone then (absL, kws)
    else metaLoop3 rest absL kws colAbs colKw kwDone

/-- docx_parser._parse_metadata; the three ValueError raises become
Except.error with the source's messages. -/
def parseMetadata (doc : Document) : Except String Metadata :=
  let paras := paragraphs doc
  let title := findTitle paras
  let authors := buildAuthors (authorCandidates title paras)
  let ak := metaLoop3 paras [] [] false false false
  let abstract := AutoLatex.pyStrip (AutoLatex.joinNL ak.1)
  if title = "" then Except.error "无法从文档中识别标题。"
  else if authors = [] then Except.error "无法从文档中识别作者信息。"
  else if abstract = "" then Except.error "无法从文档中识别摘要内容。"
  else Except.ok { title := title, authors := authors, abstract := abstract, keywords := ak.2 }

/-- List-item dict of the docx main loop: native items have no "number"
key, manual items do. -/
structure ListItem where
  text : String
  level : Nat
  number : Option String
deriving Repr, DecidableEq

/-- Content dicts emitted by docx_parser (note the "image" discriminator of
_extract_images_from_paragraph).  The optional paragraph keys inlines /
reference_markers / inline_formulas are present exactly when non-empty. -/
inductive Content where
  | heading (level : Nat) (number : String) (text : String)
  | code (language : String) (content : String)
  | formulaBlock (latex : String)
  | paragraph (text : String) (inlines : List Inline) (referenceMarkers : List String)
      (inlineFormulas : List String)
  | image (path : String) (caption : String)
  | table (caption : String) (latex : String) (imagePath : String) (data : List (List String))
  | list (ordered : Bool) (items : List ListItem)
deriving Repr, DecidableEq

def Content.typeName : Content → String
  | .heading _ _ _ => "heading"
  | .code _ _ => "code"
  | .formulaBlock _ => "formula_block"
  | .paragraph _ _ _ _ => "paragraph"
  | .image _ _ => "image"
  | .table _ _ _ _ => "table"
  | .list _ _ => "list"

/-- `^(\d+(\.\d+)*)\s+(.*)$` split of a heading text into number and pure
text (match exists when the dotted number is followed by whitespace and a
newline-free remainder). -/
def headingNumSplit (text : String) : String × String :=
  let s := text.toList
  match Txt.dottedNumber s with
  | some (num, rest) =>
    let run := rest.takeWhile AutoLatex.isPyWS
    let after := rest.drop run.length
    if !run.isEmpty && !after.contains '\n' then (String.mk num, String.mk after)
    else ("", text)
  | none => ("", text)

/-- docx_parser._paragraph_to_content. -/
def paragraphToContent (p : Para) : Option Content :=
  let text := AutoLatex.pyStrip p.text
  if text = "" then none
  else
    let hl := (guessHeadingLevel p.styleName).getD 0
    if hl ≠ 0 then
      let ns := headingNumSplit text
      some (.heading hl ns.1 ns.2)
    else if AutoLatex.hasSub "code" (pyLower p.styleName) then
      some (.code "" text)
    else
      -- `if formula_block:` — an empty extracted formula is falsy
      let fb := (detectFormulaBlock text).getD ""
      if fb ≠ "" then some (.formulaBlock fb)
      else
        some (.paragraph text (buildInlines p) (extractReferenceMarkers text)
          (extractInlineFormulas text))

/-- docx_parser._table_to_content. -/
def tableToContent (rows : List (List String)) : Content :=
  .table "" "" "" (rows.map (fun r => r.map AutoLatex.pyStrip))

/-- CAPTION_PATTERN
`^(表|table|图|figure)\s*[\d一二三四五六七八九十0-9\.-]*[:：．.\s-]*(.+)`
(IGNORECASE). -/
def capClass1 (c : Char) : Bool :=
  AutoLatex.isAsciiDigit c || c = '一' || c = '二' || c = '三' || c = '四' || c = '五' ||
  c = '六' || c = '七' || c = '八' || c = '九' || c = '十' || c = '.' || c = '-'

def capClass2 (c : Char) : Bool :=
  c = ':' || c = '：' || c = '．' || c = '.' || AutoLatex.isPyWS c || c = '-'

/-- w is in the language `\s* [class1]* [class2]*`. -/
def capDecomp (w : List Char) : Bool :=
  (List.range (w.length + 1)).any (fun i =>
    (List.range (w.length + 1)).any (fun j =>
      decide (i ≤ j) && (w.take i).all AutoLatex.isPyWS &&
      ((w.drop i).take (j - i)).all capClass1 && (w.drop j).all capClass2))

/-- Whether CAPTION_PATTERN matches the text: one of the four markers, then
some decomposable gap, then at least one non-newline char for `(.+)`. -/
def captionMatch (text : String) : Bool :=
  let cs := text.toList
  let afterMarker :=
    match AutoLatex.dropLit "表".toList cs with
    | some t => some t
    | none =>
      match AutoLatex.dropLitCI "table".toList cs with
      | some t => some t
      | none =>
        match AutoLatex.dropLit "图".toList cs with
        | some t => some t
        | none => AutoLatex.dropLitCI "figure".toList cs
  match afterMarker with
  | some r =>
    (List.range (r.length + 1)).any (fun k =>
      capDecomp (r.take k) && (r.get? k).any (fun c => !(c = '\n')))
  | none => false

/-- docx_parser._pop_caption_candidate: returns the caption (or "") and the
content list with the matching trailing paragraph removed. -/
def popCaptionCandidate (content : List Content) : String × List Content :=
  match content.getLast? with
  | some (.paragraph t _ _ _) =>
    let text := AutoLatex.pyStrip t
    if captionMatch text then (text, content.dropLast) else ("", content)
  | _ => ("", content)

/-- re.match(`^\[(\d+)\]|^(\d+)[\.))]|\((\d+)\)`, text) in the bibliography
branch of the main loop ([\.))]] being the class containing dot and closing
paren); the first non-None group, else "". -/
def docxBibId (cs : List Char) : String :=
  let b1 :=
    match cs with
    | '[' :: t =>
      let ds := t.takeWhile AutoLatex.isAsciiDigit
      if !ds.isEmpty && (t.drop ds.length).head? = some ']' then some (String.mk ds)
      else none
    | _ => none
  match b1 with
  | some v => v
  | none =>
    let ds := cs.takeWhile AutoLatex.isAsciiDigit
    if !ds.isEmpty &&
        (match cs.drop ds.length with
         | '.' :: _ => true
         | ')' :: _ => true
         | _ => false) then
      String.mk ds
    else
      match cs with
      | '(' :: t =>
        let ds2 := t.takeWhile AutoLatex.isAsciiDigit
        if !ds2.isEmpty && (t.drop ds2.length).head? = some ')' then String.mk ds2
        else ""
      | _ => ""

/-- State threaded through the main loop of parse_docx_to_json. -/
structure PState where
  content : List Content
  bibliography : List BibEntry
  bibStarted : Bool
  listItems : List ListItem
  listNumId : Option Int
deriving Repr, DecidableEq

def initPState : PState :=
  { content := [], bibliography := [], bibStarted := false, listItems := [], listNumId := none }

/-- flush_list of parse_docx_to_json (lists are always emitted with
ordered = True). -/
def flushList (st : PState) : PState :=
  if st.listItems.isEmpty then st
  else
    { st with content := st.content ++ [.list true st.listItems],
              listItems := [], listNumId := none }

/-- One iteration of the block loop of parse_docx_to_json. -/
def step (st : PState) (node : Node) : PState :=
  match node with
  | .para p =>
    let st :=
      p.images.foldl
        (fun (st : PState) path =>
          let pc := popCaptionCandidate st.content
          { st with content := pc.2 ++ [.image path pc.1] })
        st
    let text := AutoLatex.pyStrip p.text
    if text = "" then st
    else if (AutoLatex.dropLit "references".toList (pyLower text).toList).isSome ||
        (AutoLatex.dropLit "参考文献".toList (pyLower text).toList).isSome then
      { flushList st with bibStarted := true }
    else if st.bibStarted then
      { st with bibliography := st.bibliography ++
          [{ id := docxBibId text.toList, type := "misc", authors := [], title := "",
             venue := "", year := "", raw := text }] }
    else
      match p.listInfo with
      | some li =>
        let st :=
          if st.listNumId ≠ none && st.listNumId ≠ some li.1 then flushList st else st
        { st with listNumId := some li.1,
                  listItems := st.listItems ++ [{ text := text, level := li.2, number := none }] }
      | none =>
        match detectManualListItem text with
        | some m =>
          let manualId : Int := -1
          let st :=
            if st.listNumId ≠ none && st.listNumId ≠ some manualId then flushList st else st
          { st with listNumId := some manualId,
                    listItems := st.listItems ++
                      [{ text := m.text, level := 0, number := some m.number }] }
        | none =>
          let st := flushList st
          match paragraphToContent p with
          | some c => { st with content := st.content ++ [c] }
          | none => st
  | .table rows =>
    let st := flushList st
    let pc := popCaptionCandidate st.content
    let entry :=
      match tableToContent rows with
      | .table _ l ip d => Content.table pc.1 l ip d
      | e => e
    { st with content := pc.2 ++ [entry] }

/-- The dict returned by parse_docx_to_json. -/
structure DocOut where
  metadata : Metadata
  content : List Content
  bibliography : List BibEntry
deriving Repr, DecidableEq

/-- docx_parser.parse_docx_to_json over the modelled document body;
metadata failure propagates as the ValueError of _parse_metadata. -/
def parseDocxToJson (doc : Document) : Except String DocOut :=
  match parseMetadata doc with
  | .error e => .error e
  | .ok md =>
    let st := flushList (doc.foldl step initPState)
    let bib := if st.bibliography.isEmpty then [AutoLatex.emptyBibEntry] else st.bibliography
    .ok { metadata := md, content := st.content, bibliography := bib }

end Docx

namespace Md

/-- A node of the HTML element tree produced by markdown.markdown +
BeautifulSoup (an external library pair, so the rendered tree is an input
of the embedding): either a NavigableString or a Tag with its name,
attributes and children. -/
inductive El where
  | text (s : String)
  | tag (name : String) (attrs : List (String × String)) (children : List El)

mutual

/-- Executable size of an element tree (bounds the tree depth, used as the
fuel of the walking functions so they always run to completion). -/
def elSize : El → Nat
  | .text _ => 1
  | .tag _ _ children => 1 + elSizeL children

def elSizeL : List El → Nat
  | [] => 0
  | e :: es => elSize e + elSizeL es

end

def getAttr (attrs : List (String × String)) (k : String) : Option String :=
  (attrs.find? (fun a => a.1 = k)).map (fun a => a.2)

/-- All descendant strings in document order (fuel bounds the depth; the
wrappers pass sizeOf, which dominates the depth). -/
def elStrings : Nat → El → List String
  | 0, _ => []
  | _ + 1, .text s => [s]
  | fuel + 1, .tag _ _ children => children.flatMap (elStrings fuel)

/-- BeautifulSoup get_text(). -/
def getText (e : El) : String := String.join (elStrings (elSize e) e)

/-- get_text(strip=True): each string stripped, empties dropped,
concatenated. -/
def getTextStrip (e : El) : String :=
  String.join (((elStrings (elSize e) e).map AutoLatex.pyStrip).filter (fun s => s ≠ ""))

/-- get_text(" ", strip=True). -/
def getTextSpaceStrip (e : El) : String :=
  String.intercalate " "
    (((elStrings (elSize e) e).map AutoLatex.pyStrip).filter (fun s => s ≠ ""))

/-- First descendant tag (pre-order, self excluded) satisfying p, as
BeautifulSoup find does. -/
def findDescL : Nat → (String → List (String × String) → List El → Bool) → List El → Option El
  | 0, _, _ => none
  | _ + 1, _, [] => none
  | fuel + 1, p, e :: rest =>
    match e with
    | .tag name attrs children =>
      if p name attrs children then some e
      else
        match findDescL fuel p children with
        | some r => some r
        | none => findDescL fuel p rest
    | .text _ => findDescL fuel p rest

def findDesc (p : String → List (String × String) → List El → Bool) (e : El) : Option El :=
  match e with
  | .tag _ _ children => findDescL (elSize e) p children
  | .text _ => none

/-- All descendant tags (pre-order, self excluded) satisfying p, as
BeautifulSoup find_all does. -/
def findAllDescL : Nat → (String → Bool) → List El → List El
  | 0, _, _ => []
  | _ + 1, _, [] => []
  | fuel + 1, p, e :: rest =>
    match e with
    | .tag name _ children =>
      (if p name then [e] else []) ++ findAllDescL fuel p children ++ findAllDescL fuel p rest
    | .text _ => findAllDescL fuel p rest

def findAllDesc (p : String → Bool) (e : El) : List El :=
  match e with
  | .tag _ _ children => findAllDescL (elSize e) p children
  | .text _ => []

/-- The negative lookahead `(?![\sxX]\])` right after the opening
bracket. -/
def lookaheadBad (t : List Char) : Bool :=
  match t with
  | a :: ']' :: _ => AutoLatex.isPyWS a || a = 'x' || a = 'X'
  | _ => false

/-- findall of md's `\[(?![\sxX]\])[0-9,\-\s]+\]` (whole match returned,
task-list-looking brackets excluded via the lookahead). -/
def numericScan : Nat → List Char → List (List Char)
  | 0, _ => []
  | _ + 1, [] => []
  | fuel + 1, c :: t =>
    if c = '[' then
      if lookaheadBad t then numericScan fuel t
      else
        let body := t.takeWhile Txt.numericMarkerClass
        if body.isEmpty then numericScan fuel t
        else if (t.drop body.length).head? = some ']' then
          ('[' :: body ++ [']']) :: numericScan fuel (t.drop (body.length + 1))
        else numericScan fuel t
    else numericScan fuel t

/-- md_parser._extract_reference_markers. -/
def extractReferenceMarkers (text : String) : List String :=
  ((numericScan text.toList.length text.toList).map String.mk) ++
  ((Txt.authorYearScan text.toList.length text.toList).map String.mk)

/-- Projection of a yaml.safe_load result onto the fields the source reads
(yaml is an external library; none stands for a YAMLError or a non-dict
document, which both leave the metadata empty). -/
inductive YAuthor where
  | str (s : String)
  | obj (name affiliation email : String)
  | other
deriving Repr, DecidableEq

inductive YKeywords where
  | str (s : String)
  | list (l : List String)
  | other
deriving Repr, DecidableEq

structure YFront where
  title : String
  authors : List YAuthor
  abstract : String
  keywords : YKeywords
deriving Repr, DecidableEq

/-- Metadata dict of md_parser. -/
structure Metadata where
  title : String
  authors : List Author
  abstract : String
  keywords : List String
deriving Repr, DecidableEq

def emptyMetadata : Metadata :=
  { title := "", authors := [], abstract := "", keywords := [] }

/-- Leftmost occurrence index of a literal. -/
def findSubIdx : Nat → List Char → List Char → Option Nat
  | 0, _, _ => none
  | fuel + 1, pat, cs =>
    if List.isPrefixOf pat cs then some 0
    else
      match cs with
      | [] => none
      | _ :: t => (findSubIdx fuel pat t).map (· + 1)

/-- Python text.split("---", 2). -/
def split3Dashes (s : String) : List String :=
  let cs := s.toList
  match findSubIdx cs.length "---".toList cs with
  | none => [s]
  | some i =>
    let rest := cs.drop (i + 3)
    match findSubIdx rest.length "---".toList rest with
    | none => [String.mk (cs.take i), String.mk rest]
    | some j =>
      [String.mk (cs.take i), String.mk (rest.take j), String.mk (rest.drop (j + 3))]

/-- md_parser._parse_metadata_from_md: the front-matter block is parsed
when the text starts with --- and splits in three; yaml errors and
non-dict front matter leave the metadata empty. -/
def parseMetadataFromMd (yamlLoad : String → Option YFront) (mdText : String) :
    Metadata × String :=
  if AutoLatex.sStartsWith mdText "---" then
    let parts := split3Dashes mdText
    if 2 < parts.length then
      let remaining := AutoLatex.pyStrip (parts.getD 2 "")
      let metadata :=
        match yamlLoad (AutoLatex.pyStrip (parts.getD 1 "")) with
        | some fm =>
          { title := fm.title
            authors :=
              fm.authors.filterMap (fun a =>
                match a with
                | .str s => some { name := s, affiliation := "", email := "" }
                | .obj n af em => some { name := n, affiliation := af, email := em }
                | .other => none)
            abstract := fm.abstract
            keywords :=
              match fm.keywords with
              | .str s =>
                ((AutoLatex.splitOnPredS (fun c => c = ',') s).map AutoLatex.pyStrip).filter
                  (fun k => k ≠ "")
              | .list l => (l.map AutoLatex.pyStrip).filter (fun k => k ≠ "")
              | .other => [] }
        | none => emptyMetadata
      (metadata, remaining)
    else (emptyMetadata, mdText)
  else (emptyMetadata, mdText)

/-- `^(#+\s+(?:References|参考文献))` (IGNORECASE | MULTILINE) head check at
one position. -/
def refHeadingHere (cs : List Char) : Bool :=
  let hs := cs.takeWhile (fun c => c = '#')
  if hs.isEmpty then false
  else
    let r := cs.drop hs.length
    let ws := r.takeWhile AutoLatex.isPyWS
    if ws.isEmpty then false
    else
      let r2 := r.drop ws.length
      (AutoLatex.dropLitCI "references".toList r2).isSome ||
      (AutoLatex.dropLit "参考文献".toList r2).isSome

/-- md_parser._split_content_and_bibliography: split at the first
line-start match of the references-heading pattern, both halves
stripped when a match exists. -/
def splitContentBibAux : Nat → Bool → List Char → List Char → Option (List Char × List Char)
  | 0, _, _, _ => none
  | fuel + 1, atStart, acc, cs =>
    if atStart && refHeadingHere cs then some (acc.reverse, cs)
    else
      match cs with
      | [] => none
      | c :: t => splitContentBibAux fuel (c = '\n') (c :: acc) t

def splitContentBib (mdText : String) : String × String :=
  let cs := mdText.toList
  match splitContentBibAux (cs.length + 1) true [] cs with
  | some (pre, post) => (AutoLatex.pyStrip (String.mk pre), AutoLatex.pyStrip (String.mk post))
  | none => (mdText, "")

mutual

/-- Content dicts emitted by md_parser (discriminators as written by the
source, including "formula_inline" and "reference_marker"). -/
inductive Block where
  | heading (level : Nat) (number : String) (text : String)
  | paragraph (text : String)
  | formulaBlock (latex : String)
  | formulaInline (latex : String)
  | referenceMarker (marker : String)
  | list (ordered : Bool) (items : List LItem)
  | code (language : String) (text : String)
  | table (caption : String) (headers : List String) (rows : List (List String))
  | figure (path : String) (caption : String)
  | blockquote (children : List Block)
  | separator

/-- List-item dict of _parse_list: text, task-list checked flag (None when
not a task item), nested list blocks. -/
inductive LItem where
  | mk (text : String) (checked : Option Bool) (children : List Block)

end

def Block.typeName : Block → String
  | .heading _ _ _ => "heading"
  | .paragraph _ => "paragraph"
  | .formulaBlock _ => "formula_block"
  | .formulaInline _ => "formula_inline"
  | .referenceMarker _ => "reference_marker"
  | .list _ _ => "list"
  | .code _ _ => "code"
  | .table _ _ _ => "table"
  | .figure _ _ => "figure"
  | .blockquote _ => "blockquote"
  | .separator => "separator"

/-- posixpath.join for the two-argument case used by the source. -/
def pyJoin (a b : String) : String :=
  if AutoLatex.sStartsWith b "/" then b
  else if a = "" || AutoLatex.sEndsWith a "/" then a ++ b
  else a ++ "/" ++ b

/-- posixpath.normpath. -/
def pyNormPath (p : String) : String :=
  if p = "" then "."
  else
    let isl : Nat :=
      if AutoLatex.sStartsWith p "//" && !(AutoLatex.sStartsWith p "///") then 2
      else if AutoLatex.sStartsWith p "/" then 1 else 0
    let comps := AutoLatex.splitOnPredS (fun c => c = '/') p
    let newComps :=
      comps.foldl
        (fun (acc : List String) comp =>
          if comp = "" || comp = "." then acc
          else if comp ≠ ".." || (isl = 0 && acc.isEmpty) || acc.getLast? = some ".." then
            acc ++ [comp]
          else if !acc.isEmpty then acc.dropLast
          else acc)
        []
    let res := String.mk (List.replicate isl '/') ++ String.intercalate "/" newComps
    if res = "" then "." else res

/-- md_parser._resolve_image_path. -/
def resolveImagePath (imageSrc : String) (baseDir : String) : String :=
  if imageSrc = "" then ""
  else if AutoLatex.sStartsWith imageSrc "http://" || AutoLatex.sStartsWith imageSrc "https://" then imageSrc
  else pyNormPath (pyJoin baseDir imageSrc)

def isHeadingTag (name : String) : Bool :=
  name = "h1" || name = "h2" || name = "h3" || name = "h4" || name = "h5" || name = "h6"

/-- md_parser._parse_heading (the number split is the same regex as the
docx heading split). -/
def parseHeading (el : El) : List Block :=
  let level :=
    match el with
    | .tag n _ _ => (match n.toList with | _ :: d :: _ => d.toNat - 48 | _ => 0)
    | .text _ => 0
  let text := getTextStrip el
  let ns := Docx.headingNumSplit text
  [.heading level ns.1 ns.2]

/-- md_parser._paragraph_with_references (`if formula:` — an empty group is
falsy and falls through to the paragraph branch). -/
def paragraphWithReferences (text : String) : List Block :=
  let f := (Txt.detectFormulaBlock text).getD ""
  if f ≠ "" then [.formulaBlock f]
  else
    [Block.paragraph text] ++ (Txt.extractInlineFormulas text).map Block.formulaInline ++
    (extractReferenceMarkers text).map Block.referenceMarker

/-- md_parser._parse_paragraph. -/
def parseParagraphEl (el : El) : List Block :=
  let text := getTextStrip el
  if text = "" then [] else paragraphWithReferences text

/-- `language-(\w+)` match over one class token. -/
def classLang (c : String) : Option String :=
  match AutoLatex.dropLit "language-".toList c.toList with
  | some rest =>
    let w := rest.takeWhile AutoLatex.isWordChar
    if w.isEmpty then none else some (String.mk w)
  | none => none

/-- md_parser._parse_code_block (tag.code and find("code") are both the
first descendant named code; the class attribute is multi-valued). -/
def parseCodeBlock (el : El) : List Block :=
  match findDesc (fun n _ _ => n = "code") el with
  | none => [.code "" (getText el)]
  | some code =>
    let classes :=
      match code with
      | .tag _ attrs _ =>
        match getAttr attrs "class" with
        | some v => (AutoLatex.splitOnPredS AutoLatex.isPyWS v).filter (fun s => s ≠ "")
        | none => []
      | .text _ => []
    let language := ((classes.filterMap classLang).head?).getD ""
    [.code language (getText code)]

/-- md_parser._parse_table. -/
def parseTable (el : El) : List Block :=
  let caption :=
    match findDesc (fun n _ _ => n = "caption") el with
    | some c => getTextStrip c
    | none => ""
  let headerCells : El → List String := fun row =>
    (findAllDesc (fun n => n = "th" || n = "td") row).map getTextStrip
  let headers :=
    match findDesc (fun n _ _ => n = "thead") el with
    | some thead =>
      match findDesc (fun n _ _ => n = "tr") thead with
      | some hrow => headerCells hrow
      | none => []
    | none =>
      match findDesc (fun n _ _ => n = "tr") el with
      | some frow => headerCells frow
      | none => []
  let bodyRows :=
    match findDesc (fun n _ _ => n = "tbody") el with
    | some tbody => findAllDesc (fun n => n = "tr") tbody
    | none =>
      let allRows := findAllDesc (fun n => n = "tr") el
      if headers ≠ [] && 1 < allRows.length then allRows.drop 1 else allRows
  let rows :=
    bodyRows.filterMap (fun row =>
      let cells := headerCells row
      if cells.isEmpty then none else some cells)
  [.table caption headers rows]

/-- md_parser._parse_image. -/
def parseImage (attrs : List (String × String)) (baseDir : String) : List Block :=
  let src := (getAttr attrs "src").getD ""
  if src = "" then []
  else
    [.figure (resolveImagePath src baseDir) (AutoLatex.pyStrip ((getAttr attrs "alt").getD ""))]

/-- Task-list check `^\s*\[(?P<flag>[ xX])\]\s*(.+)$` on an item text. -/
def taskCheck (text : String) : Option Bool × String :=
  match AutoLatex.stripLeadWS text.toList with
  | '[' :: f :: ']' :: rest =>
    if f = ' ' || f = 'x' || f = 'X' then
      let r2 := rest.dropWhile AutoLatex.isPyWS
      if !r2.isEmpty && !r2.contains '\n' then
        (some (AutoLatex.lowerC f = 'x'), String.mk r2)
      else (none, text)
    else (none, text)
  | _ => (none, text)

/-- get_text(" ", strip=True) over a list of children (the li with its
direct sub-lists extracted). -/
def getTextSpaceStripL (es : List El) : String :=
  String.intercalate " "
    (((es.flatMap (elStrings (elSizeL es))).map AutoLatex.pyStrip).filter (fun s => s ≠ ""))

def isListTag : El → Bool
  | .tag n _ _ => n = "ul" || n = "ol"
  | .text _ => false

mutual

/-- md_parser._parse_block_element: dispatch on the tag name.  The fuel
decreases on every call and the top-level wrapper passes more fuel than the
tree is deep, so the recursion always completes. -/
def parseBlockElement : Nat → String → El → List Block
  | 0, _, _ => []
  | _ + 1, _, .text _ => []
  | fuel + 1, baseDir, .tag name attrs children =>
    if isHeadingTag name then parseHeading (.tag name attrs children)
    else if name = "p" then parseParagraphEl (.tag name attrs children)
    else if name = "ul" || name = "ol" then parseListEl fuel (.tag name attrs children)
    else if name = "pre" then parseCodeBlock (.tag name attrs children)
    else if name = "table" then parseTable (.tag name attrs children)
    else if name = "img" then parseImage attrs baseDir
    else if name = "blockquote" then parseBlockquoteL fuel baseDir children
    else if name = "hr" then [.separator]
    else
      let t := getTextStrip (.tag name attrs children)
      if t ≠ "" then [.paragraph t] else []

/-- md_parser._parse_list: direct li children; their direct ul/ol
sub-lists are extracted before the item text is taken and recursed on. -/
def parseListEl : Nat → El → List Block
  | 0, _ => []
  | fuel + 1, el =>
    match el with
    | .tag name _ children =>
      let ordered := name = "ol"
      let lis :=
        children.filterMap (fun c =>
          match c with
          | .tag "li" a cs => some (a, cs)
          | _ => none)
      let items :=
        lis.map (fun li =>
          let subLists := li.2.filter isListTag
          let remaining := li.2.filter (fun c => !isListTag c)
          let tc := taskCheck (getTextSpaceStripL remaining)
          let childBlocks := subLists.flatMap (fun sub => parseListEl fuel sub)
          LItem.mk tc.2 tc.1 childBlocks)
      [.list ordered items]
    | .text _ => []

/-- Body of md_parser._parse_blockquote's loop over one child (a
NavigableString becomes a paragraph of its stripped text when non-empty, a
tag is recursed on). -/
def bqChild : Nat → String → El → List Block
  | _, _, .text s =>
    let t := AutoLatex.pyStrip s
    if t ≠ "" then [Block.paragraph t] else []
  | 0, _, .tag _ _ _ => []
  | fuel + 1, baseDir, .tag n a cs => parseBlockElement fuel baseDir (.tag n a cs)

/-- md_parser._parse_blockquote over the blockquote's children. -/
def parseBlockquoteL : Nat → String → List El → List Block
  | 0, _, _ => []
  | fuel + 1, baseDir, children =>
    let childrenBlocks := children.flatMap (fun child => bqChild fuel baseDir child)
    if childrenBlocks.isEmpty then [] else [.blockquote childrenBlocks]

end

def parseBlockElementTop (baseDir : String) (e : El) : List Block :=
  parseBlockElement (3 * elSize e + 3) baseDir e

/-- md_parser._parse_content_from_md: the render parameter stands for
markdown.markdown(text, extensions=[fenced_code, tables, toc, codehilite])
followed by BeautifulSoup, yielding the top-level element sequence;
NavigableString children of the body are skipped. -/
def parseContentFromMd (render : String → List El) (baseDir : String) (mdText : String) :
    List Block :=
  (render mdText).flatMap (fun e =>
    match e with
    | .text _ => []
    | .tag n a cs => parseBlockElementTop baseDir (.tag n a cs))

/-- md_parser._split_keywords_text: split on `[,\n，、;；]`, strip, drop
empties. -/
def kwSplitSep (c : Char) : Bool :=
  c = ',' || c = '\n' || c = '，' || c = '、' || c = ';' || c = '；'

def splitKeywordsText (s : String) : List String :=
  ((AutoLatex.splitOnPredS kwSplitSep s).map AutoLatex.pyStrip).filter (fun k => k ≠ "")

/-- Heading pattern `^#+\s*(keywords|关键词)\s*$` (CI, MULTILINE) tried at a
line start; on a match returns md_text[match.end():], where the greedy
`\s*$` ends before the last newline of the trailing whitespace run (or at
the end of the string when only whitespace follows). -/
def kwHeadingHere (cs : List Char) : Option (List Char) :=
  let hs := cs.takeWhile (fun c => c = '#')
  if hs.isEmpty then none
  else
    let r := (cs.drop hs.length).dropWhile AutoLatex.isPyWS
    let afterM :=
      match AutoLatex.dropLitCI "keywords".toList r with
      | some t => some t
      | none => AutoLatex.dropLit "关键词".toList r
    match afterM with
    | some t =>
      let w := t.takeWhile AutoLatex.isPyWS
      if (t.drop w.length).isEmpty then some []
      else if w.contains '\n' then
        let lastNL := w.length - 1 - (w.reverse.takeWhile (fun c => !(c = '\n'))).length
        some (t.drop lastNL)
      else none
    | none => none

def findKwHeading : Nat → Bool → List Char → Option (List Char)
  | 0, _, _ => none
  | fuel + 1, atStart, cs =>
    match (if atStart then kwHeadingHere cs else none) with
    | some f => some f
    | none =>
      match cs with
      | [] => none
      | c :: t => findKwHeading fuel (c = '\n') t

/-- `^#+\s` (MULTILINE) search: index of the first line-start hash run
followed by whitespace. -/
def nextHeadingIdx : Nat → Bool → Nat → List Char → Option Nat
  | 0, _, _, _ => none
  | fuel + 1, atStart, idx, cs =>
    let hit :=
      atStart &&
      (match cs with
       | '#' :: _ =>
         let hs := cs.takeWhile (fun c => c = '#')
         ((cs.drop hs.length).head?).any AutoLatex.isPyWS
       | _ => false)
    if hit then some idx
    else
      match cs with
      | [] => none
      | c :: t => nextHeadingIdx fuel (c = '\n') (idx + 1) t

/-- `\s*(.+)` group after the colon of the inline keywords pattern: the
greedy whitespace run backs off to the last position with a following
non-newline char; the group runs to the end of that line. -/
def kwInlineGroup (u : List Char) : Option String :=
  let w := u.takeWhile AutoLatex.isPyWS
  match ((List.range (w.length + 1)).reverse.find? (fun j =>
      (u.get? j).any (fun c => !(c = '\n')))) with
  | some j => some (String.mk ((u.drop j).takeWhile (fun c => !(c = '\n'))))
  | none => none

/-- Inline pattern `(?:Keywords|关键词)\s*[:：]\s*(.+)` (case-sensitive),
tried at one position. -/
def kwInlineHere (cs : List Char) : Option String :=
  let afterM :=
    match AutoLatex.dropLit "Keywords".toList cs with
    | some t => some t
    | none => AutoLatex.dropLit "关键词".toList cs
  match afterM with
  | some t =>
    match t.dropWhile AutoLatex.isPyWS with
    | ':' :: u => kwInlineGroup u
    | '：' :: u => kwInlineGroup u
    | _ => none
  | none => none

def findKwInline : Nat → List Char → Option String
  | 0, _ => none
  | fuel + 1, cs =>
    match kwInlineHere cs with
    | some g => some g
    | none =>
      match cs with
      | [] => none
      | _ :: t => findKwInline fuel t

/-- md_parser._extract_keywords_from_body. -/
def extractKeywordsFromBody (mdText : String) : List String :=
  let cs := mdText.toList
  let inline : List String :=
    match findKwInline (cs.length + 1) cs with
    | some g => splitKeywordsText g
    | none => []
  match findKwHeading (cs.length + 1) true cs with
  | some following =>
    let block :=
      match nextHeadingIdx (following.length + 1) true 0 following with
      | some i => AutoLatex.pyStrip (String.mk (following.take i))
      | none => AutoLatex.pyStrip (String.mk following)
    if block ≠ "" then splitKeywordsText block else inline
  | none => inline

/-- Case-insensitive substring containment. -/
def hasSubLCI (pat : List Char) : List Char → Bool
  | [] => pat.isEmpty
  | c :: t => (AutoLatex.dropLitCI pat (c :: t)).isSome || hasSubLCI pat t

/-- The bs4 string= filter re.compile(r"references|参考文献", IGNORECASE)
searched in a tag's .string. -/
def refHeadingStringMatch (s : String) : Bool :=
  hasSubLCI "references".toList s.toList || AutoLatex.hasSub "参考文献" s

/-- bs4 tag.string: the single NavigableString child, following
single-child tag chains. -/
def elString : Nat → El → Option String
  | 0, _ => none
  | _ + 1, .text s => some s
  | fuel + 1, .tag _ _ [child] => elString fuel child
  | _ + 1, .tag _ _ _ => none

/-- soup.find([h1..h6], string=re.compile(r"references|参考文献", I)). -/
def isRefHeading (e : El) : Bool :=
  match e with
  | .tag name _ _ =>
    isHeadingTag name && ((elString (elSize e) e).any refHeadingStringMatch)
  | .text _ => false

/-- Pre-order search for the references heading, returning its following
siblings (what the find_next_sibling walk will traverse). -/
def findRefHeadingTail : Nat → List El → Option (List El)
  | 0, _ => none
  | _ + 1, [] => none
  | fuel + 1, e :: rest =>
    if isRefHeading e then some rest
    else
      match e with
      | .tag _ _ children =>
        match findRefHeadingTail fuel children with
        | some tail => some tail
        | none => findRefHeadingTail fuel rest
      | .text _ => findRefHeadingTail fuel rest

/-- The per-paragraph line loop of _parse_bibliography_from_md. -/
def bibPLines (acc : List String) (text : String) : List String :=
  (AutoLatex.splitNL text).foldl
    (fun acc line =>
      let l := AutoLatex.pyStrip line
      if l ≠ "" && (Txt.bibIdGroups l.toList).isSome then acc ++ [l]
      else if l ≠ "" then
        match acc.getLast? with
        | some last => acc.dropLast ++ [last ++ " " ++ l]
        | none => acc ++ [l]
      else acc)
    acc

/-- The find_next_sibling walk of _parse_bibliography_from_md: stops at the
next heading, collects li texts of lists and the numbered/continuation
lines of paragraphs (find_next_sibling skips NavigableStrings). -/
def bibCollect : List El → List String → List String
  | [], acc => acc
  | e :: rest, acc =>
    match e with
    | .text _ => bibCollect rest acc
    | .tag name _ _ =>
      if isHeadingTag name then acc
      else if name = "ul" || name = "ol" then
        bibCollect rest
          (acc ++ (findAllDesc (fun n => n = "li") e).map (fun li => AutoLatex.pyStrip (getText li)))
      else if name = "p" then bibCollect rest (bibPLines acc (AutoLatex.pyStrip (getText e)))
      else bibCollect rest acc

/-- md_parser._parse_bibliography_from_md over the rendered tree (the
render parameter stands for markdown.markdown + BeautifulSoup). -/
def parseBibliographyFromMd (render : String → List El) (mdText : String) : List BibEntry :=
  if mdText = "" then []
  else
    let els := render mdText
    match findRefHeadingTail (elSizeL els + 1) els with
    | none => []
    | some tail =>
      (bibCollect tail []).filterMap (fun item =>
        if item = "" then none
        else
          some { id := (Txt.bibIdGroups item.toList).getD "", type := "misc", authors := [],
                 title := "", venue := "", year := "", raw := item })

/-- The external effects of md_parser bundled: the two markdown+soup
renderings (content with extensions, bibliography without) and
yaml.safe_load. -/
structure Renderer where
  renderContent : String → List El
  renderBib : String → List El
  yamlLoad : String → Option YFront

/-- The document dict returned by md_parser.parse_md_to_json. -/
structure Doc where
  metadata : Metadata
  content : List Block
  bibliography : List BibEntry

/-- md_parser.parse_md_to_json as a function of the file text and the
directory of the file (os.path.dirname(file_path)). -/
def parseMdToJson (r : Renderer) (baseDir : String) (mdText : String) : Doc :=
  let pm := parseMetadataFromMd r.yamlLoad mdText
  let metadata :=
    if pm.1.keywords.isEmpty then
      { pm.1 with keywords := extractKeywordsFromBody pm.2 }
    else pm.1
  let cb := splitContentBib pm.2
  let bib0 := parseBibliographyFromMd r.renderBib cb.2
  { metadata := metadata
    content := parseContentFromMd r.renderContent baseDir cb.1
    bibliography := if bib0.isEmpty then [AutoLatex.emptyBibEntry] else bib0 }

mutual

/-- The element tree rendered from the markdown contains no img tag: on
such trees the base directory handed to the walker (used only to resolve
image sources into output paths) is never consulted. -/
def elNoImg : El → Bool
  | .text _ => true
  | .tag n _ cs => (!(n == "img")) && elNoImgL cs

def elNoImgL : List El → Bool
  | [] => true
  | e :: es => elNoImg e && elNoImgL es

end

end Md

namespace Tool

/-- posixpath.splitext: split off the extension at the last dot of the
basename, unless every char before it in the basename is a dot. -/
def pySplitext (p : String) : String × String :=
  let cs := p.toList
  let n := cs.length
  let baseStart := n - (cs.reverse.takeWhile (fun c => !(c = '/'))).length
  let afterDot := (cs.reverse.takeWhile (fun c => !(c = '.'))).length
  if afterDot = n then (p, "")
  else
    let dotIdx := n - afterDot - 1
    if dotIdx < baseStart then (p, "")
    else if ((cs.drop baseStart).take (dotIdx - baseStart)).any (fun c => !(c = '.')) then
      (String.mk (cs.take dotIdx), String.mk (cs.drop dotIdx))
    else (p, "")

/-- The error taxonomy of DocumentParserTool._run: FileNotFoundError,
NotImplementedError, the ValueError raised on schema failure, and any
exception propagating out of a parser call. -/
inductive RunError where
  | fileNotFound (msg : String)
  | notImplemented (msg : String)
  | schemaInvalid (msg : String)
  | parserError (msg : String)
deriving Repr, DecidableEq

/-- DocumentParserTool._run over an abstract parsed-document type:
pathExists models os.path.exists, the three parser parameters the extractor
calls (each may raise), validate the load_document_schema +
validate_parsed_document pair, and serialize json.dumps. -/
def documentParserRun {α : Type} (pathExists : Bool) (filePath : String)
    (parseDocx parseMd parseTxt : String → Except String α)
    (validate : α → Bool) (serialize : α → String) : Except RunError String :=
  if !pathExists then .error (.fileNotFound ("文件不存在: " ++ filePath))
  else
    let ext := Docx.pyLower (pySplitext filePath).2
    let parsed : Except RunError α :=
      if ext = ".docx" then (parseDocx filePath).mapError RunError.parserError
      else if ext = ".md" then (parseMd filePath).mapError RunError.parserError
      else if ext = ".txt" then (parseTxt filePath).mapError RunError.parserError
      else .error (.notImplemented ("当前版本暂不支持 " ++ ext ++ " 文件解析。"))
    match parsed with
    | .error e => .error e
    | .ok d =>
      if validate d then .ok (serialize d)
      else .error (.schemaInvalid "解析结果未能通过 Schema 验证，请检查文档结构。")

end Tool

namespace Schema

/-- Outcome of the external jsonschema.validate call: success, a
ValidationError carrying its message, or any other exception. -/
inductive ValidateOutcome where
  | ok
  | validationError (msg : String)
  | otherError (msg : String)
deriving Repr, DecidableEq

/-- schema_validator.validate_parsed_document over abstract data and schema
types, with jsonschema.validate as an outcome-valued parameter: both
exception branches are caught and the diagnostic is printed (second
component), never re-raised — the function always returns a Bool. -/
def validateParsedDocument {δ σ : Type} (validate : δ → σ → ValidateOutcome)
    (data : δ) (schema : σ) : Bool × List String :=
  match validate data schema with
  | .ok => (true, [])
  | .validationError m =>
    (false, ["Parsed JSON data is NOT valid against the schema. Error: " ++ m])
  | .otherError m =>
    (false, ["An unexpected error occurred during schema validation: " ++ m])

end Schema

/-- Extract the ok value of an Except with a fallback (used by witnesses to
name concrete parse results without spelling them out). -/
def exOk {ε α : Type} (x : Except ε α) (dflt : α) : α :=
  match x with
  | .ok v => v
  | .error _ => dflt

/-- Fallback document for witnesses. -/
def dfltDocxOut : Docx.DocOut :=
  { metadata := { title := "", authors := [], abstract := "", keywords := [] },
    content := [], bibliography := [] }

/-- Concrete Word document used by several witnesses: a title paragraph, an
author paragraph, an abstract paragraph, some body and a bibliography. -/
def docxRun (t : String) : Docx.Run :=
  { text := t, bold := false, italic := false, underline := false }

def docxP (t : String) : Docx.Node :=
  .para { styleName := "Normal", runs := [docxRun t], listInfo := none, images := [] }

def docxLP (t : String) (n : Int) (lvl : Nat) : Docx.Node :=
  .para { styleName := "Normal", runs := [docxRun t], listInfo := some (n, lvl), images := [] }

def docxImgP (path : String) : Docx.Node :=
  .para { styleName := "Normal", runs := [], listInfo := none, images := [path] }

def docW : Docx.Document :=
  [docxP "My Title", docxP "Alice", docxP "Abstract: The abstract text.",
   docxP "Body paragraph."]

def docWOut : Docx.DocOut := exOk (Docx.parseDocxToJson docW) dfltDocxOut

lemma docxParseMetadata_ok {doc : Docx.Document} {m : Docx.Metadata}
    (h : Docx.parseMetadata doc = .ok m) :
    m.title ≠ "" ∧ m.authors ≠ [] ∧ m.abstract ≠ "" := by
  unfold Docx.parseMetadata at h
  simp only [] at h
  split_ifs at h with h1 h2 h3
  injection h with h
  subst h
  exact ⟨h1, h2, h3⟩

lemma docxParse_metadata {doc : Docx.Document} {out : Docx.DocOut}
    (h : Docx.parseDocxToJson doc = .ok out) :
    Docx.parseMetadata doc = .ok out.metadata := by
  unfold Docx.parseDocxToJson at h
  cases hm : Docx.parseMetadata doc with
  | error e => rw [hm] at h; cases h
  | ok md => rw [hm] at h; injection h with h; subst h; rfl

lemma docxParse_bibliography {doc : Docx.Document} {out : Docx.DocOut}
    (h : Docx.parseDocxToJson doc = .ok out) :
    out.bibliography =
      (if ((Docx.flushList (doc.foldl Docx.step Docx.initPState)).bibliography).isEmpty then
        [emptyBibEntry]
       else (Docx.flushList (doc.foldl Docx.step Docx.initPState)).bibliography) := by
  unfold Docx.parseDocxToJson at h
  cases hm : Docx.parseMetadata doc with
  | error e => rw [hm] at h; cases h
  | ok md => rw [hm] at h; injection h with h; subst h; rfl

lemma ifEmpty_len {b : List BibEntry} :
    1 ≤ (if b.isEmpty then [emptyBibEntry] else b).length := by
  cases b <;> simp

/-- C1 (corrected): the missing-field rejection exists only in the Word
extractor; the plain-text and Markdown extractors never raise and return
the document with whatever (possibly empty) metadata they recovered.
This theorem proves the amended claim: (1) a Word parse that returns a
document has non-empty title, authors and abstract; (2) the Markdown
extractor, for any renderer, returns a document with empty authors and
abstract on an input without front matter; (3) likewise the plain-text
extractor on a one-word file. -/
theorem c1_metadata_enforcement_amended :
    (∀ (doc : Docx.Document) (out : Docx.DocOut),
      Docx.parseDocxToJson doc = .ok out →
        out.metadata.title ≠ "" ∧ out.metadata.authors ≠ [] ∧ out.metadata.abstract ≠ "") ∧
    (∀ (r : Md.Renderer) (bd : String),
      (Md.parseMdToJson r bd "Hello").metadata.authors = [] ∧
      (Md.parseMdToJson r bd "Hello").metadata.abstract = "") ∧
    ((Txt.parseTxtToJson "Hello").metadata.authors = [] ∧
      (Txt.parseTxtToJson "Hello").metadata.abstract = "") := by
  refine ⟨?_, ?_, ?_⟩
  · intro doc out h
    exact docxParseMetadata_ok (docxParse_metadata h)
  · intro r bd
    have hm : Md.parseMetadataFromMd r.yamlLoad "Hello" = (Md.emptyMetadata, "Hello") := by
      unfold Md.parseMetadataFromMd
      rw [show (AutoLatex.sStartsWith "Hello" "---") = false from by decide]
      simp
    constructor
    · show (Md.parseMdToJson r bd "Hello").metadata.authors = []
      unfold Md.parseMdToJson
      rw [hm]
      rfl
    · show (Md.parseMdToJson r bd "Hello").metadata.abstract = ""
      unfold Md.parseMdToJson
      rw [hm]
      rfl
  · exact ⟨by decide, by decide⟩

/-- C1 witness: the Word conjunct holds at a concrete document that parses
successfully. -/
theorem c1_metadata_enforcement_witness :
    Docx.parseDocxToJson docW = .ok docWOut ∧
    docWOut.metadata.title ≠ "" ∧ docWOut.metadata.authors ≠ [] ∧
    docWOut.metadata.abstract ≠ "" := by
  have h : Docx.parseDocxToJson docW = .ok docWOut := by rfl
  exact ⟨h, c1_metadata_enforcement_amended.1 docW docWOut h⟩

/-- C1 counterexample: the claim as stated is false — the plain-text
extractor returns a document whose metadata.authors is empty and whose
metadata.abstract is the empty string instead of raising a missing-field
error. -/
theorem c1_counterexample :
    (Txt.parseTxtToJson "Hello").metadata.authors = [] ∧
    (Txt.parseTxtToJson "Hello").metadata.abstract = "" ∧
    (Txt.parseTxtToJson "Hello").metadata.title = "Hello" := by
  refine ⟨by decide, by decide, by decide⟩

lemma txtBib (s : String) :
    (Txt.parseTxtToJson s).bibliography =
      (if (Txt.parseBibliography (Txt.splitSections s).2).isEmpty then [emptyBibEntry]
       else Txt.parseBibliography (Txt.splitSections s).2) := rfl

lemma mdBib (r : Md.Renderer) (bd s : String) :
    (Md.parseMdToJson r bd s).bibliography =
      (if (Md.parseBibliographyFromMd r.renderBib
            (Md.splitContentBib (Md.parseMetadataFromMd r.yamlLoad s).2).2).isEmpty then
        [emptyBibEntry]
       else
        Md.parseBibliographyFromMd r.renderBib
          (Md.splitContentBib (Md.parseMetadataFromMd r.yamlLoad s).2).2) := rfl

/-- C2 (confirmed): for every input on which extraction succeeds the
bibliography is non-empty; when the bibliography-parsing stage finds no
entries, each of the three extractors returns exactly the single
placeholder entry with empty/default fields. -/
theorem c2_bibliography_nonempty :
    (∀ s : String, 1 ≤ (Txt.parseTxtToJson s).bibliography.length) ∧
    (∀ (r : Md.Renderer) (bd s : String), 1 ≤ (Md.parseMdToJson r bd s).bibliography.length) ∧
    (∀ (doc : Docx.Document) (out : Docx.DocOut),
      Docx.parseDocxToJson doc = .ok out → 1 ≤ out.bibliography.length) ∧
    (∀ s : String, Txt.parseBibliography (Txt.splitSections s).2 = [] →
      (Txt.parseTxtToJson s).bibliography = [emptyBibEntry]) ∧
    (∀ (r : Md.Renderer) (bd s : String),
      Md.parseBibliographyFromMd r.renderBib
          (Md.splitContentBib (Md.parseMetadataFromMd r.yamlLoad s).2).2 = [] →
        (Md.parseMdToJson r bd s).bibliography = [emptyBibEntry]) := by
  refine ⟨?_, ?_, ?_, ?_, ?_⟩
  · intro s; rw [txtBib]; exact ifEmpty_len
  · intro r bd s; rw [mdBib]; exact ifEmpty_len
  · intro doc out h; rw [docxParse_bibliography h]; exact ifEmpty_len
  · intro s h; rw [txtBib, h]; rfl
  · intro r bd s h; rw [mdBib, h]; rfl

/-- C2 witness: the Word conjunct at a concrete successfully-parsed
document, and the placeholder conjunct of the plain-text extractor at a
file with no references section. -/
theorem c2_bibliography_nonempty_witness :
    Docx.parseDocxToJson docW = .ok docWOut ∧ 1 ≤ docWOut.bibliography.length ∧
    (Txt.parseTxtToJson "Hello").bibliography = [emptyBibEntry] := by
  have h : Docx.parseDocxToJson docW = .ok docWOut := by rfl
  refine ⟨h, c2_bibliography_nonempty.2.2.1 docW docWOut h,
    c2_bibliography_nonempty.2.2.2.1 "Hello" (by decide)⟩

/-- The discriminator set published by the spec. -/
def documentedTypeNames : List String :=
  ["heading", "paragraph", "list", "table", "figure", "code", "formula_block",
   "reference", "blockquote", "separator"]

/-- The discriminators txt_parser._parse_content actually emits. -/
def txtTypeNames : List String :=
  ["heading", "paragraph", "list", "table", "code", "formula_block", "caption",
   "quote", "formula_inline", "reference_marker"]

/-- The discriminators parse_docx_to_json actually emits. -/
def docxTypeNames : List String :=
  ["heading", "paragraph", "list", "table", "code", "formula_block", "image"]

/-- C3 counterexample: on the input "> hi" the plain-text extractor emits a
block whose type discriminator is "quote", which is not in the documented
set (the documented "blockquote" never appears in txt output). -/
theorem c3_counterexample :
    Txt.parseContent "> hi" = [Txt.Block.quote "hi"] ∧
    (Txt.Block.quote "hi").typeName = "quote" ∧
    documentedTypeNames.contains "quote" = false :=
  ⟨by decide, rfl, by decide⟩

/-- C3 (corrected): the discriminators are not drawn from the documented
set.  The plain-text extractor emits exactly types from {heading,
paragraph, list, table, code, formula_block, caption, quote,
formula_inline, reference_marker}; the Markdown paragraph annotator emits
formula_block / paragraph / formula_inline / reference_marker; the Word
extractor emits image (not figure) for embedded pictures; and the
undocumented discriminators genuinely occur. -/
theorem c3_discriminators_amended :
    (∀ s : String, (Txt.parseContent s).all
      (fun b => txtTypeNames.contains b.typeName) = true) ∧
    (∀ t : String, (Md.paragraphWithReferences t).all
      (fun b => (["formula_block", "paragraph", "formula_inline",
        "reference_marker"] : List String).contains b.typeName) = true) ∧
    (∀ (doc : Docx.Document) (out : Docx.DocOut),
      Docx.parseDocxToJson doc = .ok out →
        out.content.all (fun c => docxTypeNames.contains c.typeName) = true) ∧
    ((Txt.parseContent "Figure 1: x").map Txt.Block.typeName = ["caption"] ∧
      (Txt.parseContent "See $x$ in [1]").map Txt.Block.typeName =
        ["paragraph", "formula_inline", "reference_marker"] ∧
      (Docx.Content.image "p" "c").typeName = "image" ∧
      documentedTypeNames.contains "image" = false ∧
      documentedTypeNames.contains "caption" = false ∧
      documentedTypeNames.contains "formula_inline" = false ∧
      documentedTypeNames.contains "reference_marker" = false) := by
  refine ⟨?_, ?_, ?_, by decide, by decide, rfl, by decide, by decide, by decide, by decide⟩
  · intro s
    simp only [List.all_eq_true]
    intro b _
    cases b <;> rfl
  · intro t
    simp only [List.all_eq_true]
    intro b hb
    simp only [Md.paragraphWithReferences] at hb
    split at hb
    · simp only [List.mem_singleton] at hb
      subst hb; rfl
    · simp only [List.append_assoc, List.mem_append, List.mem_singleton, List.mem_map] at hb
      rcases hb with rfl | ⟨x, _, rfl⟩ | ⟨x, _, rfl⟩ <;> rfl
  · intro doc out _
    simp only [List.all_eq_true]
    intro c _
    cases c <;> rfl

/-- C3 witness: the Word conjunct at a concrete successfully-parsed
document. -/
theorem c3_discriminators_witness :
    Docx.parseDocxToJson docW = .ok docWOut ∧
    docWOut.content.all (fun c => docxTypeNames.contains c.typeName) = true := by
  have h : Docx.parseDocxToJson docW = .ok docWOut := by rfl
  exact ⟨h, c3_discriminators_amended.2.2.1 docW docWOut h⟩

/-- A references region with no blank lines and more than 100 chars: the
blank-line split yields one segment, so the numbered-line fallback runs. -/
def c7Input : String :=
  "[1] Alpha beta gamma delta epsilon zeta eta theta iota kappa.\n[2] Beta entry with more than enough text to pass the length check."

set_option maxRecDepth 20000 in
/-- C7 (code_bug): on a no-blank-line references region the fallback
re-segments by numbered lines but appends the segments to the unsplit
one-item list instead of replacing it, so the output contains an extra
leading entry whose raw is the whole region — every reference is emitted
twice, once inside that aggregate and once as its own entry.  The comment
above the fallback ("需要按编号行分割", re-split by numbered lines) and the
spec agree that only the segments were intended. -/
theorem c7_fallback_duplicates_region :
    100 < c7Input.toList.length ∧
    (Txt.splitBlank c7Input).length = 1 ∧
    Txt.parseBibliography c7Input =
      [{ id := "1", type := "misc", authors := [], title := "", venue := "", year := "",
         raw := c7Input },
       { id := "1", type := "misc", authors := [], title := "", venue := "", year := "",
         raw := "[1] Alpha beta gamma delta epsilon zeta eta theta iota kappa." },
       { id := "2", type := "misc", authors := [], title := "", venue := "", year := "",
         raw := "[2] Beta entry with more than enough text to pass the length check." }] :=
  ⟨by decide, by decide, by decide⟩

/-- C8 (confirmed): the entry point checks existence first, then
dispatches on the lower-cased extension; an unsupported extension fails
with the NotImplemented message naming that extension, and the result is
then independent of the parser and validator arguments (none is
invoked). -/
theorem c8_dispatch_errors :
    (∀ (α : Type) (path : String) (p1 p2 p3 : String → Except String α)
        (v : α → Bool) (sz : α → String),
      Tool.documentParserRun false path p1 p2 p3 v sz =
        .error (.fileNotFound ("文件不存在: " ++ path))) ∧
    (∀ (α : Type) (path : String) (p1 p2 p3 q1 q2 q3 : String → Except String α)
        (v w : α → Bool) (sz z : α → String),
      Docx.pyLower (Tool.pySplitext path).2 ≠ ".docx" →
      Docx.pyLower (Tool.pySplitext path).2 ≠ ".md" →
      Docx.pyLower (Tool.pySplitext path).2 ≠ ".txt" →
        Tool.documentParserRun true path p1 p2 p3 v sz =
          .error (.notImplemented
            ("当前版本暂不支持 " ++ Docx.pyLower (Tool.pySplitext path).2 ++ " 文件解析。")) ∧
        Tool.documentParserRun true path p1 p2 p3 v sz =
          Tool.documentParserRun true path q1 q2 q3 w z) := by
  constructor
  · intro α path p1 p2 p3 v sz
    rfl
  · intro α path p1 p2 p3 q1 q2 q3 v w sz z h1 h2 h3
    constructor
    · unfold Tool.documentParserRun
      simp only [if_neg h1, if_neg h2, if_neg h3]
      try rfl
    · unfold Tool.documentParserRun
      simp only [if_neg h1, if_neg h2, if_neg h3]
      try rfl

/-- C8 witness: a .pdf path with the file present hits the NotImplemented
branch with the extension in the message, and a missing file hits
FileNotFound. -/
theorem c8_dispatch_errors_witness :
    Tool.documentParserRun false "/tmp/x.pdf"
        (fun _ => (.ok () : Except String Unit)) (fun _ => .ok ()) (fun _ => .ok ())
        (fun _ => true) (fun _ => "") =
      .error (.fileNotFound "文件不存在: /tmp/x.pdf") ∧
    Tool.documentParserRun true "/tmp/x.PDF"
        (fun _ => (.ok () : Except String Unit)) (fun _ => .ok ()) (fun _ => .ok ())
        (fun _ => true) (fun _ => "") =
      .error (.notImplemented "当前版本暂不支持 .pdf 文件解析。") := by
  refine ⟨c8_dispatch_errors.1 Unit "/tmp/x.pdf" _ _ _ _ _, ?_⟩
  have h := (c8_dispatch_errors.2 Unit "/tmp/x.PDF"
    (fun _ => (.ok () : Except String Unit)) (fun _ => .ok ()) (fun _ => .ok ())
    (fun _ => (.ok () : Except String Unit)) (fun _ => .ok ()) (fun _ => .ok ())
    (fun _ => true) (fun _ => true) (fun _ => "") (fun _ => "")
    (by decide) (by decide) (by decide)).1
  exact h

/-- C10 (confirmed): validate_parsed_document is total — both the
ValidationError branch and the catch-all branch return False with a
printed diagnostic, and True is returned exactly when jsonschema
validation succeeds. -/
theorem c10_validator_totality :
    ∀ (δ σ : Type) (v : δ → σ → Schema.ValidateOutcome) (d : δ) (s : σ),
      ((Schema.validateParsedDocument v d s).1 = true ↔ v d s = Schema.ValidateOutcome.ok) ∧
      ((Schema.validateParsedDocument v d s).1 = false ↔ v d s ≠ Schema.ValidateOutcome.ok) := by
  intro δ σ v d s
  unfold Schema.validateParsedDocument
  cases h : v d s <;> simp

lemma popCaption_concat (cs : List Docx.Content) (t : String) (inl : List Docx.Inline)
    (rm fs : List String) (h : Docx.captionMatch (pyStrip t) = true) :
    Docx.popCaptionCandidate (cs ++ [Docx.Content.paragraph t inl rm fs]) =
      (pyStrip t, cs) := by
  unfold Docx.popCaptionCandidate
  rw [List.getLast?_concat]
  simp [h, List.dropLast_concat]

lemma flushList_of_empty {st : Docx.PState} (h : st.listItems = []) :
    Docx.flushList st = st := by
  unfold Docx.flushList
  rw [h]
  rfl

/-- C4 (confirmed): when the last emitted block is a paragraph whose text
matches CAPTION_PATTERN, processing an image-bearing paragraph or (with no
open list run) a table pops that paragraph and re-uses its full text as the
figure/table caption, so the caption text survives exactly once. -/
theorem c4_caption_consumption :
    ∀ (st : Docx.PState) (cs : List Docx.Content) (t : String)
      (inl : List Docx.Inline) (rm fs : List String)
      (sty path : String) (rows : List (List String)),
      st.bibStarted = false →
      st.content = cs ++ [Docx.Content.paragraph t inl rm fs] →
      Docx.captionMatch (pyStrip t) = true →
      ((Docx.step st (Docx.Node.para
          { styleName := sty, runs := [], listInfo := none, images := [path] })).content =
        cs ++ [Docx.Content.image path (pyStrip t)]) ∧
      (st.listItems = [] →
        (Docx.step st (Docx.Node.table rows)).content =
          cs ++ [Docx.Content.table (pyStrip t) "" ""
            (rows.map (fun r => r.map pyStrip))]) := by
  intro st cs t inl rm fs sty path rows hbib hcontent hcap
  constructor
  · unfold Docx.step
    simp only [List.foldl_cons, List.foldl_nil]
    rw [hcontent, popCaption_concat cs t inl rm fs hcap]
    rfl
  · intro hlist
    unfold Docx.step
    dsimp only
    rw [flushList_of_empty hlist, hcontent, popCaption_concat cs t inl rm fs hcap]
    rfl

/-- Concrete pre-state for the C4 witness: a single emitted paragraph
"Figure 1: A diagram". -/
def c4State : Docx.PState :=
  { content := [Docx.Content.paragraph "Figure 1: A diagram" [] [] []],
    bibliography := [], bibStarted := false, listItems := [], listNumId := none }

/-- C4 witness: the caption-consumption theorem applied at the concrete
pre-state, for both the image and the table successor. -/
theorem c4_caption_consumption_witness :
    ((Docx.step c4State (Docx.Node.para
        { styleName := "Normal", runs := [], listInfo := none,
          images := ["parsed_images/x.png"] })).content =
      [Docx.Content.image "parsed_images/x.png" "Figure 1: A diagram"]) ∧
    ((Docx.step c4State (Docx.Node.table [["a", "b"]])).content =
      [Docx.Content.table "Figure 1: A diagram" "" "" [["a", "b"]]]) := by
  have h := c4_caption_consumption c4State [] "Figure 1: A diagram" [] [] []
    "Normal" "parsed_images/x.png" [["a", "b"]] rfl rfl (by decide)
  exact ⟨h.1, h.2 rfl⟩

lemma contains_eq_false_of {l : List String} {a : String} (h : ∀ x ∈ l, x ≠ a) :
    l.contains a = false := by
  induction l with
  | nil => rfl
  | cons x xs ih =>
    have h1 : xs.contains a = false := ih (fun y hy => h y (List.mem_cons_of_mem _ hy))
    have h2 : (a == x) = false :=
      beq_eq_false_iff_ne.mpr (Ne.symm (h x (List.mem_cons_self _ _)))
    show (a == x || xs.contains a) = false
    rw [h2, h1]
    rfl

lemma append_bracket_single {l : List Char} {b : Char}
    (h : l ++ [']'] = [b, ']']) : l = [b] := by
  have hlen : l.length = 1 := by
    have := congrArg List.length h
    simp at this
    exact this
  cases l with
  | nil => simp at hlen
  | cons x xs =>
    cases xs with
    | nil =>
      rw [List.cons_append] at h
      injection h with h1 _
      rw [h1]
    | cons y ys => simp at hlen

/-- When the greedy class run of the bracket scan is a single char and the
closing bracket follows, the scanned text starts with that char and the
bracket — the shape the task-list lookahead rejects. -/
lemma takeWhile_single_then_bracket {t : List Char} {b : Char}
    (hTW : t.takeWhile Txt.numericMarkerClass = [b])
    (hcl : (List.drop (t.takeWhile Txt.numericMarkerClass).length t).head? = some ']') :
    ∃ u, t = b :: ']' :: u := by
  rw [hTW] at hcl
  simp only [List.length_cons, List.length_nil] at hcl
  cases t with
  | nil => simp at hTW
  | cons a t2 =>
    rw [List.takeWhile_cons] at hTW
    by_cases hpa : Txt.numericMarkerClass a = true
    · rw [if_pos hpa] at hTW
      injection hTW with h1 h2
      subst h1
      simp only [List.drop_succ_cons, List.drop_zero] at hcl
      cases t2 with
      | nil => simp at hcl
      | cons d u =>
        simp only [List.head?_cons, Option.some.injEq] at hcl
        subst hcl
        exact ⟨u, rfl⟩
    · rw [if_neg hpa] at hTW; cases hTW

lemma mdNumericScan_no_task :
    ∀ (fuel : Nat) (cs : List Char), ∀ m ∈ Md.numericScan fuel cs,
      m ≠ ['[', ' ', ']'] ∧ m ≠ ['[', 'x', ']'] := by
  intro fuel
  induction fuel with
  | zero => intro cs m hm; simp [Md.numericScan] at hm
  | succ n ih =>
    intro cs m hm
    cases cs with
    | nil => simp [Md.numericScan] at hm
    | cons c t =>
      simp only [Md.numericScan] at hm
      split_ifs at hm with hc hla hb hcl
      · exact ih t m hm
      · exact ih t m hm
      · rcases List.mem_cons.mp hm with rfl | hm'
        · constructor
          · intro he
            injection he with h1 he
            rw [List.append_eq] at he
            have hTW := append_bracket_single he
            obtain ⟨u, hu⟩ := takeWhile_single_then_bracket hTW hcl
            rw [hu] at hla
            exact hla rfl
          · intro he
            injection he with h1 he
            rw [List.append_eq] at he
            have hx : 'x' ∈ t.takeWhile Txt.numericMarkerClass ++ [']'] := by
              rw [he]; simp
            rcases List.mem_append.mp hx with hx' | hx'
            · exact absurd (List.mem_takeWhile_imp hx') (by decide)
            · simp at hx'
        · exact ih _ m hm'
      · exact ih t m hm
      · exact ih t m hm

lemma txtNumericScan_no_x :
    ∀ (fuel : Nat) (cs : List Char), ∀ m ∈ Txt.txtNumericScan fuel cs,
      m ≠ ['[', 'x', ']'] := by
  intro fuel
  induction fuel with
  | zero => intro cs m hm; simp [Txt.txtNumericScan] at hm
  | succ n ih =>
    intro cs m hm
    cases cs with
    | nil => simp [Txt.txtNumericScan] at hm
    | cons c t =>
      simp only [Txt.txtNumericScan] at hm
      split_ifs at hm with hc hb hcl
      · exact ih t m hm
      · rcases List.mem_cons.mp hm with rfl | hm'
        · intro he
          injection he with h1 he
          rw [List.append_eq] at he
          have hx : 'x' ∈ t.takeWhile Txt.numericMarkerClass ++ [']'] := by
            rw [he]; simp
          rcases List.mem_append.mp hx with hx' | hx'
          · exact absurd (List.mem_takeWhile_imp hx') (by decide)
          · simp at hx'
        · exact ih _ m hm'
      · exact ih t m hm
      · exact ih t m hm

lemma docxNumericScan_no_task :
    ∀ (fuel : Nat) (cs : List Char), ∀ m ∈ Docx.numericScan fuel cs,
      m ≠ [' '] ∧ m ≠ ['x'] := by
  intro fuel
  induction fuel with
  | zero => intro cs m hm; simp [Docx.numericScan] at hm
  | succ n ih =>
    intro cs m hm
    cases cs with
    | nil => simp [Docx.numericScan] at hm
    | cons c t =>
      simp only [Docx.numericScan] at hm
      split_ifs at hm with hc hla hb hcl
      · exact ih t m hm
      · exact ih t m hm
      · rcases List.mem_cons.mp hm with rfl | hm'
        · constructor
          · intro he
            obtain ⟨u, hu⟩ := takeWhile_single_then_bracket he hcl
            rw [hu] at hla
            exact hla rfl
          · intro he
            have hx : 'x' ∈ t.takeWhile Txt.numericMarkerClass := by rw [he]; simp
            exact absurd (List.mem_takeWhile_imp hx) (by decide)
        · exact ih _ m hm'
      · exact ih t m hm
      · exact ih t m hm

lemma txtAyScan_paren :
    ∀ (fuel : Nat) (cs : List Char), ∀ m ∈ Txt.authorYearScan fuel cs,
      m.head? = some '(' := by
  intro fuel
  induction fuel with
  | zero => intro cs m hm; simp [Txt.authorYearScan] at hm
  | succ n ih =>
    intro cs m hm
    cases cs with
    | nil => simp [Txt.authorYearScan] at hm
    | cons c t =>
      simp only [Txt.authorYearScan] at hm
      split_ifs at hm with hc
      · cases hay : Txt.ayMatch t with
        | none => rw [hay] at hm; exact ih t m hm
        | some p =>
          rw [hay] at hm
          rcases List.mem_cons.mp hm with rfl | hm'
          · rfl
          · exact ih _ m hm'
      · exact ih t m hm

lemma docxAyScan_paren :
    ∀ (fuel : Nat) (cs : List Char), ∀ m ∈ Docx.authorYearScan fuel cs,
      m.head? = some '(' := by
  intro fuel
  induction fuel with
  | zero => intro cs m hm; simp [Docx.authorYearScan] at hm
  | succ n ih =>
    intro cs m hm
    cases cs with
    | nil => simp [Docx.authorYearScan] at hm
    | cons c t =>
      simp only [Docx.authorYearScan] at hm
      split_ifs at hm with hc halpha hcl hay
      · rcases List.mem_cons.mp hm with rfl | hm'
        · rfl
        · exact ih _ m hm'
      · exact ih t m hm
      · exact ih t m hm
      · exact ih t m hm
      · exact ih t m hm

lemma mk_ne {m : List Char} {a : String} (h : m ≠ a.toList) : String.mk m ≠ a := by
  intro he
  exact h (by rw [← he]; exact rfl)

lemma mk_ne_of_head {m : List Char} {a : String} (hh : m.head? = some '(')
    (ha : a.toList.head? = some '(' → False) : String.mk m ≠ a := by
  intro he
  apply ha
  have hm : a.toList = m := by rw [← he]; exact rfl
  rw [hm]
  exact hh

lemma md_markers_ne (t : String) :
    ∀ s ∈ Md.extractReferenceMarkers t, s ≠ "[ ]" ∧ s ≠ "[x]" := by
  intro s hs
  unfold Md.extractReferenceMarkers at hs
  rcases List.mem_append.mp hs with hs' | hs'
  · obtain ⟨m, hm, rfl⟩ := List.mem_map.mp hs'
    have h := mdNumericScan_no_task _ _ m hm
    refine ⟨mk_ne ?_, mk_ne ?_⟩
    · rw [show ("[ ]" : String).toList = ['[', ' ', ']'] from rfl]
      exact h.1
    · rw [show ("[x]" : String).toList = ['[', 'x', ']'] from rfl]
      exact h.2
  · obtain ⟨m, hm, rfl⟩ := List.mem_map.mp hs'
    have h := txtAyScan_paren _ _ m hm
    exact ⟨mk_ne_of_head h (by decide), mk_ne_of_head h (by decide)⟩

lemma txt_markers_ne (t : String) :
    ∀ s ∈ Txt.extractReferenceMarkers t, s ≠ "[x]" := by
  intro s hs
  unfold Txt.extractReferenceMarkers at hs
  rcases List.mem_append.mp hs with hs' | hs'
  · obtain ⟨m, hm, rfl⟩ := List.mem_map.mp hs'
    have h := txtNumericScan_no_x _ _ m hm
    refine mk_ne ?_
    rw [show ("[x]" : String).toList = ['[', 'x', ']'] from rfl]
    exact h
  · obtain ⟨m, hm, rfl⟩ := List.mem_map.mp hs'
    exact mk_ne_of_head (txtAyScan_paren _ _ m hm) (by decide)

lemma docx_markers_ne (t : String) :
    ∀ s ∈ Docx.extractReferenceMarkers t, s ≠ " " ∧ s ≠ "x" := by
  intro s hs
  unfold Docx.extractReferenceMarkers at hs
  rcases List.mem_append.mp hs with hs' | hs'
  · obtain ⟨m, hm, rfl⟩ := List.mem_map.mp hs'
    have h := docxNumericScan_no_task _ _ m hm
    refine ⟨mk_ne ?_, mk_ne ?_⟩
    · rw [show (" " : String).toList = [' '] from rfl]
      exact h.1
    · rw [show ("x" : String).toList = ['x'] from rfl]
      exact h.2
  · obtain ⟨m, hm, rfl⟩ := List.mem_map.mp hs'
    have h := docxAyScan_paren _ _ m hm
    exact ⟨mk_ne_of_head h (by decide), mk_ne_of_head h (by decide)⟩

/-- C6 counterexample: the txt pattern has no task-list exclusion — on a
text containing the bracket pair "[ ]" the txt extractor returns that pair
as a numeric reference marker. -/
theorem c6_counterexample :
    Txt.extractReferenceMarkers "Task [ ] done" = ["[ ]"] ∧
    (Txt.extractReferenceMarkers "Task [ ] done").contains "[ ]" = true := ⟨by decide, by decide⟩

/-- C6 (corrected): the Markdown and Word extractors exclude the task-list
pair via a lookahead and never return a marker for it ("[x]" additionally
matches none of the numeric classes, in any extractor), but the plain-text
extractor's numeric pattern has no such exclusion and returns "[ ]".  All
three extractors do return the numeric-bracket and author-year markers; the
Word extractor returns numeric markers without the surrounding brackets
(its pattern captures only the body). -/
theorem c6_markers_amended :
    (∀ t : String, (Md.extractReferenceMarkers t).contains "[ ]" = false ∧
      (Md.extractReferenceMarkers t).contains "[x]" = false) ∧
    (∀ t : String, (Txt.extractReferenceMarkers t).contains "[x]" = false) ∧
    (∀ t : String, (Docx.extractReferenceMarkers t).contains " " = false ∧
      (Docx.extractReferenceMarkers t).contains "x" = false) ∧
    Txt.extractReferenceMarkers "Task [ ] done" = ["[ ]"] ∧
    Md.extractReferenceMarkers
        "Task [ ] or [x]; see [1], [1,2], [1-3] and (Smith, 2020), (Smith et al., 2020a)" =
      ["[1]", "[1,2]", "[1-3]", "(Smith, 2020)", "(Smith et al., 2020a)"] ∧
    Txt.extractReferenceMarkers
        "See [1], [1,2], [1-3] and (Smith, 2020), (Smith et al., 2020a)" =
      ["[1]", "[1,2]", "[1-3]", "(Smith, 2020)", "(Smith et al., 2020a)"] ∧
    Docx.extractReferenceMarkers
        "See [1], [1,2], [1-3] and (Smith, 2020), (Smith et al., 2020a)" =
      ["1", "1,2", "1-3", "(Smith, 2020)", "(Smith et al., 2020a)"] := by
  refine ⟨?_, ?_, ?_, by decide, by decide, by decide, by decide⟩
  · intro t
    exact ⟨contains_eq_false_of (fun x hx => (md_markers_ne t x hx).1),
      contains_eq_false_of (fun x hx => (md_markers_ne t x hx).2)⟩
  · intro t
    exact contains_eq_false_of (fun x hx => txt_markers_ne t x hx)
  · intro t
    exact ⟨contains_eq_false_of (fun x hx => (docx_markers_ne t x hx).1),
      contains_eq_false_of (fun x hx => (docx_markers_ne t x hx).2)⟩

lemma flatMap_congr_mem {α β : Type} {l : List α} {f g : α → List β}
    (h : ∀ a ∈ l, f a = g a) : l.flatMap f = l.flatMap g := by
  induction l with
  | nil => rfl
  | cons x xs ihx =>
    simp only [List.flatMap_cons]
    rw [h x (List.mem_cons_self x xs),
      ihx (fun a ha => h a (List.mem_cons_of_mem x ha))]

lemma elNoImgL_mem : ∀ (cs : List Md.El) (a : Md.El), Md.elNoImgL cs = true →
    a ∈ cs → Md.elNoImg a = true
  | [], _, _, ha => absurd ha (List.not_mem_nil _)
  | x :: xs, a, h, ha => by
    simp only [Md.elNoImgL, Bool.and_eq_true] at h
    rcases List.mem_cons.mp ha with rfl | ha'
    · exact h.1
    · exact elNoImgL_mem xs a h.2 ha'

lemma mdWalk_baseDir (fuel : Nat) :
    (∀ (b1 b2 : String) (e : Md.El), Md.elNoImg e = true →
      Md.parseBlockElement fuel b1 e = Md.parseBlockElement fuel b2 e) ∧
    (∀ (b1 b2 : String) (e : Md.El), Md.elNoImg e = true →
      Md.bqChild fuel b1 e = Md.bqChild fuel b2 e) ∧
    (∀ (b1 b2 : String) (cs : List Md.El), Md.elNoImgL cs = true →
      Md.parseBlockquoteL fuel b1 cs = Md.parseBlockquoteL fuel b2 cs) := by
  induction fuel with
  | zero =>
    refine ⟨fun _ _ _ _ => rfl, fun b1 b2 e he => ?_, fun _ _ _ _ => rfl⟩
    cases e <;> rfl
  | succ n ih =>
    refine ⟨?_, ?_, ?_⟩
    · intro b1 b2 e he
      cases e with
      | text s => rfl
      | tag name attrs children =>
        have hni : (name == "img") = false ∧ Md.elNoImgL children = true := by
          simpa [Md.elNoImg, Bool.and_eq_true, Bool.not_eq_true'] using he
        have hImg : ¬(name = "img") := beq_eq_false_iff_ne.mp hni.1
        simp only [Md.parseBlockElement, if_neg hImg]
        rw [ih.2.2 b1 b2 children hni.2]
    · intro b1 b2 e he
      cases e with
      | text s => rfl
      | tag name attrs children =>
        simp only [Md.bqChild]
        exact ih.1 b1 b2 _ he
    · intro b1 b2 cs he
      have hfm : cs.flatMap (fun child => Md.bqChild n b1 child) =
          cs.flatMap (fun child => Md.bqChild n b2 child) := by
        refine flatMap_congr_mem ?_
        intro a ha
        exact ih.2.1 b1 b2 a (elNoImgL_mem cs a he ha)
      simp only [Md.parseBlockquoteL]
      rw [hfm]

/-- C9: extraction is deterministic.  The plain-text extractor is a
function of the file contents alone (equal contents give structurally equal
documents), and the Markdown extractor on image-free renders is independent
of the environment-derived base directory — the only input beyond the
contents — so two runs on the same unmodified contents agree on metadata,
content and bibliography. -/
theorem c9_deterministic_extraction (r : Md.Renderer) (b1 b2 s t : String)
    (hst : s = t)
    (himg : Md.elNoImgL (r.renderContent
      (Md.splitContentBib (Md.parseMetadataFromMd r.yamlLoad s).2).1) = true) :
    Txt.parseTxtToJson s = Txt.parseTxtToJson t ∧
    Md.parseMdToJson r b1 s = Md.parseMdToJson r b2 t := by
  subst hst
  refine ⟨rfl, ?_⟩
  have hc : Md.parseContentFromMd r.renderContent b1
      (Md.splitContentBib (Md.parseMetadataFromMd r.yamlLoad s).2).1 =
    Md.parseContentFromMd r.renderContent b2
      (Md.splitContentBib (Md.parseMetadataFromMd r.yamlLoad s).2).1 := by
    unfold Md.parseContentFromMd
    refine flatMap_congr_mem ?_
    intro e he
    cases e with
    | text a => rfl
    | tag name attrs children =>
      have hni := elNoImgL_mem _ _ himg he
      simp only [Md.parseBlockElementTop]
      exact (mdWalk_baseDir _).1 b1 b2 _ hni
  simp only [Md.parseMdToJson]
  rw [hc]

/-- A concrete render pipeline: every markdown text becomes a single
paragraph tag holding it, no bibliography elements, no YAML front matter. -/
def c9R : Md.Renderer :=
  { renderContent := fun t => [.tag "p" [] [.text t]]
    renderBib := fun _ => []
    yamlLoad := fun _ => none }

theorem c9_deterministic_extraction_witness :
    ("Hello" : String) = "Hello" ∧
    Md.elNoImgL (c9R.renderContent
      (Md.splitContentBib (Md.parseMetadataFromMd c9R.yamlLoad "Hello").2).1) = true ∧
    (Txt.parseTxtToJson "Hello" = Txt.parseTxtToJson "Hello" ∧
      Md.parseMdToJson c9R "/a" "Hello" = Md.parseMdToJson c9R "/b" "Hello") :=
  ⟨rfl, by decide,
    c9_deterministic_extraction c9R "/a" "/b" "Hello" "Hello" rfl (by decide)⟩

/-- The bibliography-header prefix test of the main docx loop. -/
def refHeaderB (text : String) : Bool :=
  (AutoLatex.dropLit "references".toList (Docx.pyLower text).toList).isSome ||
  (AutoLatex.dropLit "参考文献".toList (Docx.pyLower text).toList).isSome

/-- The list item the loop appends for a native-numbered paragraph. -/
def c5NativeItem (p : Docx.Para) : Docx.ListItem :=
  { text := AutoLatex.pyStrip p.text, level := (p.listInfo.getD (0, 0)).2, number := none }

/-- The list item the loop appends for a manually-numbered paragraph. -/
def c5ManualItem (q : Docx.Para) : Docx.ListItem :=
  match Docx.detectManualListItem (AutoLatex.pyStrip q.text) with
  | some m => { text := m.text, level := 0, number := some m.number }
  | none => { text := "", level := 0, number := none }

lemma isSome_false_eq_none {α : Type} {o : Option α} (h : o.isSome = false) : o = none := by
  cases o with
  | none => rfl
  | some v => exact absurd h (by simp)

lemma step_native (st : Docx.PState) (p : Docx.Para) (n : Int) (l : Nat)
    (him : p.images = []) (ht : ¬(AutoLatex.pyStrip p.text = ""))
    (href : refHeaderB (AutoLatex.pyStrip p.text) = false)
    (hbib : st.bibStarted = false)
    (hli : p.listInfo = some (n, l))
    (hid : st.listNumId = none ∨ st.listNumId = some n) :
    Docx.step st (.para p) =
      { st with listNumId := some n,
                listItems := st.listItems ++
                  [{ text := AutoLatex.pyStrip p.text, level := l, number := none }] } := by
  unfold refHeaderB at href
  have hr := Bool.or_eq_false_iff.mp href
  have hr1 : AutoLatex.dropLit ['r', 'e', 'f', 'e', 'r', 'e', 'n', 'c', 'e', 's']
      (Docx.pyLower (AutoLatex.pyStrip p.text)).data = none :=
    isSome_false_eq_none hr.1
  have hr2 : AutoLatex.dropLit ['参', '考', '文', '献']
      (Docx.pyLower (AutoLatex.pyStrip p.text)).data = none :=
    isSome_false_eq_none hr.2
  rcases hid with h | h <;>
    simp [Docx.step, him, ht, hr1, hr2, hbib, hli, h]

lemma step_manual_cont (st : Docx.PState) (q : Docx.Para) (m : Docx.ManualItem)
    (him : q.images = []) (ht : ¬(AutoLatex.pyStrip q.text = ""))
    (href : refHeaderB (AutoLatex.pyStrip q.text) = false)
    (hbib : st.bibStarted = false) (hli : q.listInfo = none)
    (hm : Docx.detectManualListItem (AutoLatex.pyStrip q.text) = some m)
    (hid : st.listNumId = some (-1)) :
    Docx.step st (.para q) =
      { st with listNumId := some (-1),
                listItems := st.listItems ++
                  [{ text := m.text, level := 0, number := some m.number }] } := by
  unfold refHeaderB at href
  have hr := Bool.or_eq_false_iff.mp href
  have hr1 : AutoLatex.dropLit ['r', 'e', 'f', 'e', 'r', 'e', 'n', 'c', 'e', 's']
      (Docx.pyLower (AutoLatex.pyStrip q.text)).data = none :=
    isSome_false_eq_none hr.1
  have hr2 : AutoLatex.dropLit ['参', '考', '文', '献']
      (Docx.pyLower (AutoLatex.pyStrip q.text)).data = none :=
    isSome_false_eq_none hr.2
  simp [Docx.step, him, ht, hr1, hr2, hbib, hli, hm, hid]

lemma step_manual_flush (st : Docx.PState) (q : Docx.Para) (m : Docx.ManualItem) (n : Int)
    (him : q.images = []) (ht : ¬(AutoLatex.pyStrip q.text = ""))
    (href : refHeaderB (AutoLatex.pyStrip q.text) = false)
    (hbib : st.bibStarted = false) (hli : q.listInfo = none)
    (hm : Docx.detectManualListItem (AutoLatex.pyStrip q.text) = some m)
    (hn : ¬(n = -1)) (hid : st.listNumId = some n) :
    Docx.step st (.para q) =
      { Docx.flushList st with
          listNumId := some (-1),
          listItems := (Docx.flushList st).listItems ++
            [{ text := m.text, level := 0, number := some m.number }] } := by
  unfold refHeaderB at href
  have hr := Bool.or_eq_false_iff.mp href
  have hr1 : AutoLatex.dropLit ['r', 'e', 'f', 'e', 'r', 'e', 'n', 'c', 'e', 's']
      (Docx.pyLower (AutoLatex.pyStrip q.text)).data = none :=
    isSome_false_eq_none hr.1
  have hr2 : AutoLatex.dropLit ['参', '考', '文', '献']
      (Docx.pyLower (AutoLatex.pyStrip q.text)).data = none :=
    isSome_false_eq_none hr.2
  have hne : ¬((some n : Option Int) = some (-1)) := by simpa using hn
  simp [Docx.step, him, ht, hr1, hr2, hbib, hli, hm, hid, hne]

lemma nativeRunFold (n : Int) : ∀ (ps : List Docx.Para) (st : Docx.PState),
    st.bibStarted = false → st.listNumId = some n →
    (∀ p ∈ ps, p.images = [] ∧ ¬(AutoLatex.pyStrip p.text = "") ∧
      refHeaderB (AutoLatex.pyStrip p.text) = false ∧
      ∃ l, p.listInfo = some (n, l)) →
    (ps.map Docx.Node.para).foldl Docx.step st =
      { st with listItems := st.listItems ++ ps.map c5NativeItem, listNumId := some n }
  | [], st, _, hid, _ => by
    rw [List.map_nil, List.foldl_nil, List.map_nil, List.append_nil, ← hid]
  | p :: pt, st, hb, hid, hall => by
    obtain ⟨him, ht, href, l, hli⟩ := hall p (List.mem_cons_self p pt)
    rw [List.map_cons, List.foldl_cons, step_native st p n l him ht href hb hli (Or.inr hid)]
    rw [nativeRunFold n pt _ (by exact hb) (by rfl)
      (fun x hx => hall x (List.mem_cons_of_mem p hx))]
    simp [c5NativeItem, hli, List.append_assoc]

lemma manualRunFold : ∀ (qs : List Docx.Para) (st : Docx.PState),
    st.bibStarted = false → st.listNumId = some (-1) →
    (∀ q ∈ qs, q.images = [] ∧ ¬(AutoLatex.pyStrip q.text = "") ∧
      refHeaderB (AutoLatex.pyStrip q.text) = false ∧ q.listInfo = none ∧
      ∃ m, Docx.detectManualListItem (AutoLatex.pyStrip q.text) = some m) →
    (qs.map Docx.Node.para).foldl Docx.step st =
      { st with listItems := st.listItems ++ qs.map c5ManualItem, listNumId := some (-1) }
  | [], st, _, hid, _ => by
    rw [List.map_nil, List.foldl_nil, List.map_nil, List.append_nil, ← hid]
  | q :: qt, st, hb, hid, hall => by
    obtain ⟨him, ht, href, hli, m, hm⟩ := hall q (List.mem_cons_self q qt)
    rw [List.map_cons, List.foldl_cons, step_manual_cont st q m him ht href hb hli hm hid]
    rw [manualRunFold qt _ (by exact hb) (by rfl)
      (fun x hx => hall x (List.mem_cons_of_mem q hx))]
    simp [c5ManualItem, hm, List.append_assoc]

/-- C5: a native list run immediately followed by a manually-numbered run
yields two distinct list blocks.  The manual run is tracked under the
synthetic id -1; when the native id differs from it (as every id Word
assigns does), the first manual paragraph forces a flush of the open native
run, and the final flush emits the manual run as its own block. -/
theorem c5_list_run_separation (n : Int) (hn : ¬(n = -1))
    (ps qs : List Docx.Para) (st0 : Docx.PState)
    (hps : ps ≠ []) (hqs : qs ≠ [])
    (h0b : st0.bibStarted = false) (h0i : st0.listItems = []) (h0n : st0.listNumId = none)
    (hP : ∀ p ∈ ps, p.images = [] ∧ ¬(AutoLatex.pyStrip p.text = "") ∧
      refHeaderB (AutoLatex.pyStrip p.text) = false ∧ ∃ l, p.listInfo = some (n, l))
    (hQ : ∀ q ∈ qs, q.images = [] ∧ ¬(AutoLatex.pyStrip q.text = "") ∧
      refHeaderB (AutoLatex.pyStrip q.text) = false ∧ q.listInfo = none ∧
      ∃ m, Docx.detectManualListItem (AutoLatex.pyStrip q.text) = some m) :
    (Docx.flushList ((ps.map Docx.Node.para ++ qs.map Docx.Node.para).foldl
        Docx.step st0)).content =
      st0.content ++ [Docx.Content.list true (ps.map c5NativeItem),
        Docx.Content.list true (qs.map c5ManualItem)] := by
  obtain ⟨p, pt, rfl⟩ := List.exists_cons_of_ne_nil hps
  obtain ⟨q, qt, rfl⟩ := List.exists_cons_of_ne_nil hqs
  obtain ⟨him, ht, href, l, hli⟩ := hP p (List.mem_cons_self p pt)
  obtain ⟨hqim, hqt, hqref, hqli, m, hqm⟩ := hQ q (List.mem_cons_self q qt)
  rw [List.foldl_append]
  rw [List.map_cons, List.foldl_cons,
    step_native st0 p n l him ht href h0b hli (Or.inl h0n)]
  rw [nativeRunFold n pt _ (by exact h0b) (by rfl)
    (fun x hx => hP x (List.mem_cons_of_mem p hx))]
  simp only [h0i, List.nil_append]
  rw [List.map_cons, List.foldl_cons]
  rw [step_manual_flush _ q m n hqim hqt hqref (by exact h0b) hqli hqm hn (by rfl)]
  rw [manualRunFold qt _ (by exact h0b) (by rfl)
    (fun x hx => hQ x (List.mem_cons_of_mem q hx))]
  simp [Docx.flushList, c5NativeItem, hli, c5ManualItem, hqm, List.append_assoc]

/-- A native-numbered paragraph (Word numbering id 5). -/
def c5P : Docx.Para :=
  { styleName := "Normal",
    runs := [{ text := "alpha", bold := false, italic := false, underline := false }],
    listInfo := some (5, 0), images := [] }

/-- A manually-numbered paragraph "(1) beta". -/
def c5Q : Docx.Para :=
  { styleName := "Normal",
    runs := [{ text := "(1) beta", bold := false, italic := false, underline := false }],
    listInfo := none, images := [] }

theorem c5_list_run_separation_witness :
    ¬((5 : Int) = -1) ∧
    (Docx.flushList (([c5P].map Docx.Node.para ++ [c5Q].map Docx.Node.para).foldl
        Docx.step Docx.initPState)).content =
      Docx.initPState.content ++ [Docx.Content.list true ([c5P].map c5NativeItem),
        Docx.Content.list true ([c5Q].map c5ManualItem)] :=
  ⟨by decide,
    c5_list_run_separation 5 (by decide) [c5P] [c5Q] Docx.initPState
      (by decide) (by decide) rfl rfl rfl
      (fun p hp => by
        rw [List.mem_singleton] at hp
        subst hp
        exact ⟨rfl, by decide, by decide, ⟨0, rfl⟩⟩)
      (fun q hq => by
        rw [List.mem_singleton] at hq
        subst hq
        exact ⟨rfl, by decide, by decide, rfl,
          ⟨{ number := "1", text := "beta", format := "parenthesis" }, by decide⟩⟩)⟩

end AutoLatex
